import Mathlib

/-!
# The tunnel handler of package `mps` (`tunnel_handler.go`)

The development has two parts.

* `hostAndPort` and the pattern `hasPort`. The pattern is kept as a syntax tree and run by a
  small backtracking matcher; `\d` is the class `0`-`9` and `$`, compiled without the
  multi-line flag, holds at the end of the text only.
* `ServeHTTP`. Everything the routine calls on its collaborators (the proxy function, the
  connection container, the dialer, the buffer pool, the two sockets) is recorded, in order,
  in a trace of events. The routine runs alone up to its `go` statement; from there on the
  routine and the started function literal are two tasks whose statements interleave, and a
  schedule (a list of `Tick`) says which task runs next and what the environment answers.
  Properties of `ServeHTTP` are stated for every schedule.

Results of Go calls of shape `(value, error)` are `Except Error value`; a nil pointer or nil
interface is `none`. A dereference of a nil `tunnel.Ctx` ends the routine in `MainPc.panicked`.
-/

set_option linter.dupNamespace false

namespace Mps

/-! ## Address normalisation -/

/-- Fragment of the RE2 pattern language used by the handler. -/
inductive Regexp where
  | lit (c : Char)
  | digit
  | plus (r : Regexp)
  | cat (r s : Regexp)
  | endText
  deriving Repr

/-- Iterate a one-step matcher one or more times; longer iterations are listed first. -/
def plusIter (m : List Char → List (List Char)) : Nat → List Char → List (List Char)
  | 0, s => m s
  | n + 1, s => (m s).flatMap fun rest => plusIter m n rest ++ [rest]

/-- All residual inputs left after the expression matches a front part of the input. -/
def Regexp.residuals : Regexp → List Char → List (List Char)
  | .lit c, s =>
    match s with
    | x :: rest => if x = c then [rest] else []
    | [] => []
  | .digit, s =>
    match s with
    | x :: rest => if x.isDigit then [rest] else []
    | [] => []
  | .plus r, s => plusIter r.residuals s.length s
  | .cat r q, s => (r.residuals s).flatMap q.residuals
  | .endText, s =>
    match s with
    | [] => [[]]
    | _ :: _ => []

/-- Unanchored search, as `(*Regexp).MatchString`. -/
def Regexp.MatchString (re : Regexp) (s : String) : Bool :=
  s.data.tails.any fun t => !(re.residuals t).isEmpty

/-- The package variable `hasPort`, compiled from the pattern `:\d+$`. -/
def hasPort : Regexp :=
  .cat (.lit ':') (.cat (.plus .digit) .endText)

/-- Function `hostAndPort`. -/
def hostAndPort (addr : String) : String :=
  if !hasPort.MatchString addr then addr ++ ":80" else addr

/-- The address ends with a colon followed by one or more decimal digits. -/
def EndsWithPort (addr : String) : Prop :=
  ∃ pre ds : List Char, addr.data = pre ++ ':' :: ds ∧ ds ≠ [] ∧ ∀ c ∈ ds, c.isDigit = true

/-! ## Wire constants -/

abbrev Bytes := List Nat

/-- The conversion `[]byte(s)`: the UTF-8 encoding of the string. -/
def bytesOf (s : String) : Bytes :=
  s.data.flatMap fun c => (String.utf8EncodeChar c).map UInt8.toNat

def HttpTunnelOk : Bytes := bytesOf "HTTP/1.0 200 OK\r\n\r\n"

def HttpTunnelFail : Bytes := bytesOf "HTTP/1.1 502 Bad Gateway\r\n\r\n"

/-! ## Collaborators of the handler -/

/-- Identity of a `net.Conn` to a target. -/
abbrev Conn := Nat

/-- Identity of a byte slice lent by a buffer pool. -/
abbrev Buf := Nat

structure Error where
  msg : String
  deriving DecidableEq, Repr

structure URL where
  Host : String
  deriving DecidableEq, Repr

structure Request where
  URL : URL
  deriving DecidableEq, Repr

inductive GoContext where
  | background
  | value (id : Nat)
  deriving DecidableEq, Repr

/-- The two fields of `http.Transport` the handler reads. -/
structure Transport where
  Proxy : Option (Request → Except Error (Option URL))
  DialContext : Option (GoContext → String → String → Except Error Conn)

structure Context where
  Context : Option GoContext
  Transport : Option Transport

/-- The interface `pool.ConnContainer`; `Put` has no result and is recorded as an event. -/
structure ConnContainer where
  Get : String → Except Error Conn

/-- The interface `httputil.BufferPool`, identified by name. -/
structure BufferPool where
  id : Nat
  deriving DecidableEq, Repr

def DefaultBuffer : BufferPool := ⟨0⟩

structure TunnelHandler where
  Ctx : Option Context
  BufferPool : Option BufferPool
  ConnContainer : Option ConnContainer

/-- The package function `net.Dial`. -/
structure Net where
  Dial : String → String → Except Error Conn

/-! ## Observable events -/

inductive Dir where
  | clientToTarget
  | targetToClient
  deriving DecidableEq, Repr

inductive Event where
  /-- Call `http.Error(rw, msg, code)` on the response writer that was not hijacked -/
  | httpError (msg : String) (code : Nat)
  /-- Call `tunnel.Ctx.Transport.Proxy(req)` -/
  | proxy (req : Request)
  /-- Call `tunnel.ConnContainer.Get(addr)` with the connection it returned, if any -/
  | containerGet (addr : String) (res : Option Conn)
  /-- Call `tunnel.ConnectDial(network, addr)` with the connection it returned, if any -/
  | connectDial (network addr : String) (res : Option Conn)
  /-- Call `proxyClient.Write(data)` issued by the handler itself -/
  | clientWrite (data : Bytes)
  /-- Call `proxyClient.Close()` -/
  | clientClose
  /-- Call `req.Write(targetConn)` -/
  | reqWrite (req : Request) (c : Conn)
  /-- The `go` statement -/
  | go
  /-- Call `tunnel.buffer().Get()` in the copy of direction `d` -/
  | bufGet (p : BufferPool) (d : Dir) (b : Buf)
  /-- One chunk moved by `io.CopyBuffer` in direction `d` over target connection `c` -/
  | copied (d : Dir) (c : Conn) (data : Bytes)
  /-- Return of `io.CopyBuffer` of direction `d`, with its error if any -/
  | copyDone (d : Dir) (err : Option Error)
  /-- Call `tunnel.buffer().Put(buf)` in the copy of direction `d` -/
  | bufPut (p : BufferPool) (d : Dir) (b : Buf)
  /-- Call `tunnel.ConnContainer.Put(targetConn)` -/
  | containerPut (c : Conn)
  /-- Call `targetConn.Close()` -/
  | targetClose (c : Conn)
  deriving DecidableEq, Repr

/-! ## The handler -/

/-- Method `Context`; `none` is the nil dereference of `tunnel.Ctx`. -/
def TunnelHandler.Context (tunnel : TunnelHandler) : Option GoContext :=
  match tunnel.Ctx with
  | none => none
  | some ctx =>
    match ctx.Context with
    | some c => some c
    | none => some .background

/-- Method `ConnectDial`; `none` is the nil dereference of `tunnel.Ctx`. -/
def TunnelHandler.ConnectDial (tunnel : TunnelHandler) (net : Net) (network addr : String) :
    Option (Except Error Conn) :=
  match tunnel.Ctx with
  | none => none
  | some ctx =>
    match ctx.Transport with
    | none => some (net.Dial network addr)
    | some tr =>
      match tr.DialContext with
      | none => some (net.Dial network addr)
      | some dial => tunnel.Context.map fun c => dial c network addr

/-- Method `buffer`. -/
def TunnelHandler.buffer (tunnel : TunnelHandler) : Mps.BufferPool :=
  match tunnel.BufferPool with
  | some p => p
  | none => DefaultBuffer

/-- The calls of `ConnError(proxyClient)`. -/
def ConnError : List Event :=
  [.clientWrite HttpTunnelFail, .clientClose]

/-- Program counter of the routine that runs `ServeHTTP`, from the second `buffer().Get()` on. -/
inductive MainPc where
  | copyGet
  | copying (buf : Buf)
  | copyPut (buf : Buf)
  | deferred
  | returned
  | panicked
  deriving DecidableEq, Repr

/-- Program counter of the function literal started by the `go` statement. -/
inductive GoPc where
  | idle
  | get
  | copying (buf : Buf)
  | put (buf : Buf)
  | close
  | done
  deriving DecidableEq, Repr

structure Session where
  trace : List Event
  targetConn : Option Conn
  isCascadeProxy : Bool
  main : MainPc
  gor : GoPc
  deriving DecidableEq, Repr

/-- Target resolution of `ServeHTTP` (the `var` block and the `if` on `Transport.Proxy`): the
calls made, and `(targetAddr, isCascadeProxy)` or the error of the proxy function. -/
def resolve (ctx : Context) (req : Request) : List Event × Except Error (String × Bool) :=
  let targetAddr := hostAndPort req.URL.Host
  match ctx.Transport with
  | none => ([], .ok (targetAddr, false))
  | some tr =>
    match tr.Proxy with
    | none => ([], .ok (targetAddr, false))
    | some proxy =>
      match proxy req with
      | .error err => ([.proxy req], .error err)
      | .ok none => ([.proxy req], .ok (targetAddr, false))
      | .ok (some u) => ([.proxy req], .ok (hostAndPort u.Host, true))

/-- Recording of one `ConnectDial` call. -/
def TunnelHandler.dial (tunnel : TunnelHandler) (net : Net) (targetAddr : String) :
    List Event × Option (Except Error Conn) :=
  match tunnel.ConnectDial net "tcp" targetAddr with
  | none => ([], none)
  | some r => ([.connectDial "tcp" targetAddr r.toOption], some r)

/-- Target acquisition of `ServeHTTP` (the block under "connect to targetAddr"): the calls
made and the final `(targetConn, err)`; `none` is a panic inside `ConnectDial`. -/
def TunnelHandler.acquire (tunnel : TunnelHandler) (net : Net) (targetAddr : String) :
    List Event × Option (Except Error Conn) :=
  match tunnel.ConnContainer with
  | some cc =>
    match cc.Get targetAddr with
    | .ok c => ([.containerGet targetAddr (some c)], some (.ok c))
    | .error _ =>
      let (evs, r) := tunnel.dial net targetAddr
      (.containerGet targetAddr none :: evs, r)
  | none => tunnel.dial net targetAddr

/-- The handshake of `ServeHTTP` (the `if isCascadeProxy` block). -/
def handshake (req : Request) (isCascadeProxy : Bool) (targetConn : Conn) : Event :=
  if isCascadeProxy then .reqWrite req targetConn else .clientWrite HttpTunnelOk

/-- The routine `ServeHTTP` up to and including the `go` statement. `hijack` is the result of
`hijacker(rw)`. -/
def TunnelHandler.start (tunnel : TunnelHandler) (net : Net) (hijack : Except Error Unit)
    (req : Request) : Session :=
  match hijack with
  | .error err => ⟨[.httpError err.msg 502], none, false, .returned, .idle⟩
  | .ok _ =>
    match tunnel.Ctx with
    | none => ⟨[], none, false, .panicked, .idle⟩
    | some ctx =>
      match resolve ctx req with
      | (evs, .error _) => ⟨evs ++ ConnError, none, false, .returned, .idle⟩
      | (evs, .ok (targetAddr, isCascadeProxy)) =>
        match tunnel.acquire net targetAddr with
        | (evs2, none) => ⟨evs ++ evs2, none, isCascadeProxy, .panicked, .idle⟩
        | (evs2, some (.error _)) =>
          ⟨evs ++ evs2 ++ ConnError, none, isCascadeProxy, .returned, .idle⟩
        | (evs2, some (.ok targetConn)) =>
          ⟨evs ++ evs2 ++ [handshake req isCascadeProxy targetConn, .go],
            some targetConn, isCascadeProxy, .copyGet, .get⟩

inductive Task where
  | main
  | goroutine
  deriving DecidableEq, Repr

/-- What the next iteration of `io.CopyBuffer` meets: a chunk that is read and written, end of
stream on the source, or an error of the read or the write. -/
inductive CopyResult where
  | chunk (data : Bytes)
  | eof
  | err (e : Error)
  deriving DecidableEq, Repr

/-- One scheduling decision: the task that runs its next statement, and what the environment
answers should that statement be a `Get` on the buffer pool or an iteration of the copy. -/
structure Tick where
  task : Task
  buf : Buf
  res : CopyResult
  deriving DecidableEq, Repr

def CopyResult.error? : CopyResult → Option Error
  | .err e => some e
  | _ => none

/-- The call deferred by `ServeHTTP` once the target connection exists. -/
def TunnelHandler.deferred (tunnel : TunnelHandler) (targetConn : Conn) : Event :=
  match tunnel.ConnContainer with
  | some _ => .containerPut targetConn
  | none => .targetClose targetConn

/-- One statement of the relay, run by the scheduled task. -/
def TunnelHandler.step (tunnel : TunnelHandler) (s : Session) (k : Tick) : Session :=
  match s.targetConn with
  | none => s
  | some targetConn =>
    match k.task with
    | .goroutine =>
      match s.gor with
      | .idle => s
      | .get =>
        { s with trace := s.trace ++ [.bufGet tunnel.buffer .clientToTarget k.buf],
                 gor := .copying k.buf }
      | .copying buf =>
        match k.res with
        | .chunk data => { s with trace := s.trace ++ [.copied .clientToTarget targetConn data] }
        | r => { s with trace := s.trace ++ [.copyDone .clientToTarget r.error?], gor := .put buf }
      | .put buf =>
        { s with trace := s.trace ++ [.bufPut tunnel.buffer .clientToTarget buf], gor := .close }
      | .close => { s with trace := s.trace ++ [.clientClose], gor := .done }
      | .done => s
    | .main =>
      match s.main with
      | .copyGet =>
        { s with trace := s.trace ++ [.bufGet tunnel.buffer .targetToClient k.buf],
                 main := .copying k.buf }
      | .copying buf =>
        match k.res with
        | .chunk data => { s with trace := s.trace ++ [.copied .targetToClient targetConn data] }
        | r => { s with trace := s.trace ++ [.copyDone .targetToClient r.error?],
                        main := .copyPut buf }
      | .copyPut buf =>
        { s with trace := s.trace ++ [.bufPut tunnel.buffer .targetToClient buf],
                 main := .deferred }
      | .deferred =>
        { s with trace := s.trace ++ [tunnel.deferred targetConn], main := .returned }
      | .returned => s
      | .panicked => s

/-- The handler under a schedule of its two tasks. -/
def TunnelHandler.ServeHTTP (tunnel : TunnelHandler) (net : Net) (hijack : Except Error Unit)
    (req : Request) (sched : List Tick) : Session :=
  sched.foldl tunnel.step (tunnel.start net hijack req)


/-! ## Classification of events -/

/-- Relay events issued by the routine that runs `ServeHTTP`. -/
def Event.ofMain : Event → Bool
  | .bufGet _ .targetToClient _ => true
  | .copied .targetToClient _ _ => true
  | .copyDone .targetToClient _ => true
  | .bufPut _ .targetToClient _ => true
  | .containerPut _ => true
  | .targetClose _ => true
  | _ => false

/-- Relay events issued by the function literal of the `go` statement. -/
def Event.ofGoroutine : Event → Bool
  | .bufGet _ .clientToTarget _ => true
  | .copied .clientToTarget _ _ => true
  | .copyDone .clientToTarget _ => true
  | .bufPut _ .clientToTarget _ => true
  | .clientClose => true
  | _ => false

/-- Events of the target-to-client task from its `Get` up to the state of the routine. -/
def MainShape (tunnel : TunnelHandler) (c : Conn) : MainPc → List Event → Prop
  | .copyGet, l => l = []
  | .copying b, l => ∃ ds : List Bytes,
      l = .bufGet tunnel.buffer .targetToClient b :: ds.map (.copied .targetToClient c)
  | .copyPut b, l => ∃ (ds : List Bytes) (r : Option Error),
      l = .bufGet tunnel.buffer .targetToClient b :: ds.map (.copied .targetToClient c) ++
        [.copyDone .targetToClient r]
  | .deferred, l => ∃ (b : Buf) (ds : List Bytes) (r : Option Error),
      l = .bufGet tunnel.buffer .targetToClient b :: ds.map (.copied .targetToClient c) ++
        [.copyDone .targetToClient r, .bufPut tunnel.buffer .targetToClient b]
  | .returned, l => ∃ (b : Buf) (ds : List Bytes) (r : Option Error),
      l = .bufGet tunnel.buffer .targetToClient b :: ds.map (.copied .targetToClient c) ++
        [.copyDone .targetToClient r, .bufPut tunnel.buffer .targetToClient b,
          tunnel.deferred c]
  | .panicked, _ => False

/-- Events of the client-to-target task from its `Get` up to the state of the task. -/
def GoShape (tunnel : TunnelHandler) (c : Conn) : GoPc → List Event → Prop
  | .idle, _ => False
  | .get, l => l = []
  | .copying b, l => ∃ ds : List Bytes,
      l = .bufGet tunnel.buffer .clientToTarget b :: ds.map (.copied .clientToTarget c)
  | .put b, l => ∃ (ds : List Bytes) (r : Option Error),
      l = .bufGet tunnel.buffer .clientToTarget b :: ds.map (.copied .clientToTarget c) ++
        [.copyDone .clientToTarget r]
  | .close, l => ∃ (b : Buf) (ds : List Bytes) (r : Option Error),
      l = .bufGet tunnel.buffer .clientToTarget b :: ds.map (.copied .clientToTarget c) ++
        [.copyDone .clientToTarget r, .bufPut tunnel.buffer .clientToTarget b]
  | .done, l => ∃ (b : Buf) (ds : List Bytes) (r : Option Error),
      l = .bufGet tunnel.buffer .clientToTarget b :: ds.map (.copied .clientToTarget c) ++
        [.copyDone .clientToTarget r, .bufPut tunnel.buffer .clientToTarget b, .clientClose]

/-- Invariant of the relay: the trace is the trace at the `go` statement followed by an
interleaving of the events of the two tasks, each in program order. -/
structure RelayInv (tunnel : TunnelHandler) (c : Conn) (tr0 : List Event) (casc : Bool)
    (s : Session) : Prop where
  target : s.targetConn = some c
  cascade : s.isCascadeProxy = casc
  shape : ∃ ext : List Event, s.trace = tr0 ++ ext ∧
    (∀ e ∈ ext, e.ofMain = true ∨ e.ofGoroutine = true) ∧
    MainShape tunnel c s.main (ext.filter Event.ofMain) ∧
    GoShape tunnel c s.gor (ext.filter Event.ofGoroutine)

/-- Writes to the client socket: by the handler itself or by the target-to-client copy. -/
def Event.writesClient : Event → Bool
  | .clientWrite _ => true
  | .copied .targetToClient _ _ => true
  | _ => false

/-- Writes to and closes of the client socket. -/
def Event.onClient : Event → Bool
  | .clientClose => true
  | e => e.writesClient

/-- Writes to a target connection: of the request or by the client-to-target copy. -/
def Event.writesTarget : Event → Bool
  | .reqWrite _ _ => true
  | .copied .clientToTarget _ _ => true
  | _ => false

/-- Attempts to obtain a target connection. -/
def Event.acquires : Event → Bool
  | .containerGet _ _ => true
  | .connectDial _ _ _ => true
  | _ => false

/-- Attempts that produced a target connection. -/
def Event.established : Event → Bool
  | .containerGet _ (some _) => true
  | .connectDial _ _ (some _) => true
  | _ => false

/-- The two possible actions of the handshake step. -/
def Event.isHandshake : Event → Bool
  | .reqWrite _ _ => true
  | .clientWrite _ => true
  | _ => false

/-- Disposals of a target connection. -/
def Event.disposes : Event → Bool
  | .containerPut _ => true
  | .targetClose _ => true
  | _ => false

/-! ## Sample configurations -/

def sampleReq : Request := ⟨⟨"example.com"⟩⟩

def netUp : Net := ⟨fun _ _ => .ok 7⟩

def netDown : Net := ⟨fun _ _ => .error ⟨"connection refused"⟩⟩

/-- No proxy function, no container, default buffer pool. -/
def plainTunnel : TunnelHandler := ⟨some ⟨none, none⟩, none, none⟩

/-- A container whose pool is empty. -/
def pooledTunnel : TunnelHandler :=
  ⟨some ⟨none, none⟩, some ⟨1⟩, some ⟨fun _ => .error ⟨"no idle connection"⟩⟩⟩

/-- A container that has an idle connection. -/
def pooledHitTunnel : TunnelHandler :=
  ⟨some ⟨none, none⟩, some ⟨1⟩, some ⟨fun _ => .ok 3⟩⟩

/-- A proxy function that fails. -/
def brokenProxyTunnel : TunnelHandler :=
  ⟨some ⟨none, some ⟨some fun _ => .error ⟨"no upstream"⟩, none⟩⟩, none, none⟩

/-- A proxy function that selects an upstream proxy. -/
def cascadeTunnel : TunnelHandler :=
  ⟨some ⟨none, some ⟨some fun _ => .ok (some ⟨"upstream.local:3128"⟩), none⟩⟩, none, none⟩

/-- A proxy function that declines. -/
def decliningProxyTunnel : TunnelHandler :=
  ⟨some ⟨none, some ⟨some fun _ => .ok none, none⟩⟩, none, none⟩

def mainEof : Tick := ⟨.main, 11, .eof⟩

def mainChunk : Tick := ⟨.main, 11, .chunk [104, 105]⟩

def goChunk : Tick := ⟨.goroutine, 12, .chunk [111, 107]⟩

def goErr : Tick := ⟨.goroutine, 12, .err ⟨"connection reset by peer"⟩⟩

/-- A schedule under which both tasks run to their end. -/
def fullSchedule : List Tick :=
  [mainEof, goErr, goChunk, mainChunk, mainEof, goErr, mainEof, goErr, mainEof, goErr]

/-- A schedule under which `ServeHTTP` returns while the other task has not run. -/
def mainOnlySchedule : List Tick :=
  [mainEof, mainChunk, mainEof, mainEof, mainEof]

/-- A schedule after which both tasks are inside their copy, each having moved one chunk. -/
def midCopySchedule : List Tick :=
  [mainEof, goErr, goChunk, mainChunk]

/-- The forms an event of the relay over target connection `c` can take. -/
def RelayEvent (tunnel : TunnelHandler) (c : Conn) (e : Event) : Prop :=
  (∃ d b, e = .bufGet tunnel.buffer d b) ∨ (∃ d data, e = .copied d c data) ∨
    (∃ d r, e = .copyDone d r) ∨ (∃ d b, e = .bufPut tunnel.buffer d b) ∨
    e = .clientClose ∨ e = .containerPut c ∨ e = .targetClose c

/-- Every attempt to obtain a target connection recorded in the trace is for the address
`addr`, over `tcp` when it is a dial, and there is at least one attempt. -/
def AcquiresAt (trace : List Event) (addr : String) : Prop :=
  (∃ e ∈ trace, e.acquires = true) ∧
    ∀ e ∈ trace, e.acquires = true →
      (∃ r, e = .containerGet addr r) ∨ (∃ r, e = .connectDial "tcp" addr r)

/-- Events of the copy of direction `d`: its `Get`, its chunks, its end and its `Put`. -/
def Event.ofCopy (d : Dir) : Event → Bool
  | .bufGet _ d2 _ => d2 == d
  | .copied d2 _ _ => d2 == d
  | .copyDone d2 _ => d2 == d
  | .bufPut _ d2 _ => d2 == d
  | _ => false

theorem mem_digit_residuals (s rest : List Char) :
    rest ∈ Regexp.digit.residuals s ↔ ∃ x, x.isDigit = true ∧ s = x :: rest := by
  cases s with
  | nil => simp [Regexp.residuals]
  | cons x xs =>
    by_cases hx : x.isDigit = true
    · simp [Regexp.residuals, hx]
      constructor
      · intro h; exact ⟨x, hx, rfl, h.symm⟩
      · rintro ⟨y, _, rfl, h⟩; exact h.symm
    · simp [Regexp.residuals, hx]
      rintro y hy rfl
      exact absurd hy hx

theorem mem_plusIter_digit (n : Nat) (s rest : List Char) :
    rest ∈ plusIter Regexp.digit.residuals n s ↔
      ∃ ds : List Char, ds ≠ [] ∧ ds.length ≤ n + 1 ∧ (∀ c ∈ ds, c.isDigit = true) ∧
        s = ds ++ rest := by
  induction n generalizing s with
  | zero =>
    simp only [plusIter, mem_digit_residuals]
    constructor
    · rintro ⟨x, hx, rfl⟩
      exact ⟨[x], by simp, by simp, by simpa using hx, rfl⟩
    · rintro ⟨ds, hne, hlen, hd, rfl⟩
      match ds, hne, hlen, hd with
      | [x], _, _, hd => exact ⟨x, hd x (by simp), rfl⟩
      | _ :: _ :: _, _, hlen, _ => simp at hlen
  | succ n ih =>
    simp only [plusIter, List.mem_flatMap, mem_digit_residuals, List.mem_append,
      List.mem_singleton, ih]
    constructor
    · rintro ⟨r1, ⟨x, hx, rfl⟩, h | rfl⟩
      · obtain ⟨ds, _, hlen, hd, rfl⟩ := h
        refine ⟨x :: ds, by simp, by simpa using hlen, ?_, rfl⟩
        intro c hc
        rcases List.mem_cons.1 hc with rfl | hc
        · exact hx
        · exact hd c hc
      · exact ⟨[x], by simp, by simp, by simpa using hx, rfl⟩
    · rintro ⟨ds, hne, hlen, hd, rfl⟩
      match ds, hne, hlen, hd with
      | [x], _, _, hd => exact ⟨rest, ⟨x, hd x (by simp), rfl⟩, Or.inr rfl⟩
      | x :: y :: ds, _, hlen, hd =>
        refine ⟨y :: ds ++ rest, ⟨x, hd x (by simp), rfl⟩, Or.inl ?_⟩
        refine ⟨y :: ds, by simp, by simpa using hlen, ?_, rfl⟩
        intro c hc
        exact hd c (List.mem_cons_of_mem _ hc)

theorem mem_hasPort_residuals (t r : List Char) :
    r ∈ hasPort.residuals t ↔
      r = [] ∧ ∃ ds : List Char, t = ':' :: ds ∧ ds ≠ [] ∧ ∀ c ∈ ds, c.isDigit = true := by
  cases t with
  | nil => simp [hasPort, Regexp.residuals]
  | cons x xs =>
    by_cases hx : x = ':'
    · subst hx
      have hres : hasPort.residuals (':' :: xs) =
          (plusIter Regexp.digit.residuals xs.length xs).flatMap Regexp.endText.residuals := by
        simp only [hasPort, Regexp.residuals, if_true, List.flatMap_cons, List.flatMap_nil,
          List.append_nil]
      rw [hres]
      simp only [List.mem_flatMap, mem_plusIter_digit]
      constructor
      · rintro ⟨r1, ⟨ds, hne, _, hd, rfl⟩, hr⟩
        cases r1 with
        | nil =>
          simp [Regexp.residuals] at hr
          exact ⟨hr, ds, by simp, hne, hd⟩
        | cons y ys => simp [Regexp.residuals] at hr
      · rintro ⟨rfl, ds, h, hne, hd⟩
        simp only [List.cons.injEq, true_and] at h
        subst h
        exact ⟨[], ⟨xs, hne, by simp, hd, by simp⟩, by simp [Regexp.residuals]⟩
    · simp [hasPort, Regexp.residuals, hx]

theorem hasPort_MatchString_iff (addr : String) :
    hasPort.MatchString addr = true ↔ EndsWithPort addr := by
  unfold Regexp.MatchString EndsWithPort
  simp only [List.any_eq_true, List.mem_tails, Bool.not_eq_true', List.isEmpty_eq_false]
  constructor
  · rintro ⟨t, ⟨pre, hpre⟩, ht⟩
    obtain ⟨r, hr⟩ := List.exists_mem_of_ne_nil _ ht
    obtain ⟨_, ds, rfl, hne, hd⟩ := (mem_hasPort_residuals t r).1 hr
    exact ⟨pre, ds, hpre.symm, hne, hd⟩
  · rintro ⟨pre, ds, h, hne, hd⟩
    refine ⟨':' :: ds, ⟨pre, h.symm⟩, ?_⟩
    exact List.ne_nil_of_mem ((mem_hasPort_residuals _ []).2 ⟨rfl, ds, rfl, hne, hd⟩)

/-- C1: an address that ends with a colon followed by one or more decimal digits is returned
unchanged by `hostAndPort`; every other address gets `:80` appended. -/
theorem hostAndPort_normalizes (addr : String) :
    (EndsWithPort addr → hostAndPort addr = addr) ∧
      (¬ EndsWithPort addr → hostAndPort addr = addr ++ ":80") := by
  rw [← hasPort_MatchString_iff]
  unfold hostAndPort
  cases hasPort.MatchString addr <;> simp

theorem hostAndPort_normalizes_witness :
    (EndsWithPort "example.com:8080" ∧ hostAndPort "example.com:8080" = "example.com:8080") ∧
      (¬ EndsWithPort "[::1]" ∧ hostAndPort "[::1]" = "[::1]" ++ ":80") :=
  have h1 : EndsWithPort "example.com:8080" :=
    ⟨"example.com".data, "8080".data, rfl, by decide, by decide⟩
  have h2 : ¬ EndsWithPort "[::1]" := fun h => by
    have := (hasPort_MatchString_iff "[::1]").2 h
    revert this
    decide
  ⟨⟨h1, (hostAndPort_normalizes "example.com:8080").1 h1⟩,
    ⟨h2, (hostAndPort_normalizes "[::1]").2 h2⟩⟩

/-! ## The routine up to the `go` statement -/

theorem resolve_events (ctx : Context) (req : Request) :
    ∀ e ∈ (resolve ctx req).1, e = .proxy req := by
  cases h1 : ctx.Transport with
  | none => simp [resolve, h1]
  | some tr =>
    cases h2 : tr.Proxy with
    | none => simp [resolve, h1, h2]
    | some proxy =>
      cases hp : proxy req with
      | error err => simp [resolve, h1, h2, hp]
      | ok o => cases o <;> simp [resolve, h1, h2, hp]

theorem connectDial_isSome (tunnel : TunnelHandler) (net : Net) (network addr : String)
    (ctx : Context) (h : tunnel.Ctx = some ctx) :
    ∃ r, tunnel.ConnectDial net network addr = some r := by
  cases h1 : ctx.Transport with
  | none => exact ⟨net.Dial network addr, by simp [TunnelHandler.ConnectDial, h, h1]⟩
  | some tr =>
    cases h2 : tr.DialContext with
    | none => exact ⟨net.Dial network addr, by simp [TunnelHandler.ConnectDial, h, h1, h2]⟩
    | some dial =>
      cases h3 : ctx.Context with
      | none =>
        exact ⟨dial .background network addr,
          by simp [TunnelHandler.ConnectDial, TunnelHandler.Context, h, h1, h2, h3]⟩
      | some g =>
        exact ⟨dial g network addr,
          by simp [TunnelHandler.ConnectDial, TunnelHandler.Context, h, h1, h2, h3]⟩

theorem dial_eq (tunnel : TunnelHandler) (net : Net) (addr : String)
    (r : Except Error Conn) (h : tunnel.ConnectDial net "tcp" addr = some r) :
    tunnel.dial net addr = ([.connectDial "tcp" addr r.toOption], some r) := by
  simp [TunnelHandler.dial, h]

theorem acquire_of_get_ok (tunnel : TunnelHandler) (net : Net) (addr : String)
    (cc : ConnContainer) (c : Conn) (hcc : tunnel.ConnContainer = some cc)
    (hget : cc.Get addr = .ok c) :
    tunnel.acquire net addr = ([.containerGet addr (some c)], some (.ok c)) := by
  simp [TunnelHandler.acquire, hcc, hget]

theorem acquire_of_get_error (tunnel : TunnelHandler) (net : Net) (addr : String)
    (cc : ConnContainer) (err : Error) (r : Except Error Conn)
    (hcc : tunnel.ConnContainer = some cc) (hget : cc.Get addr = .error err)
    (hd : tunnel.ConnectDial net "tcp" addr = some r) :
    tunnel.acquire net addr =
      ([.containerGet addr none, .connectDial "tcp" addr r.toOption], some r) := by
  simp [TunnelHandler.acquire, hcc, hget, dial_eq _ _ _ _ hd]

theorem acquire_of_no_container (tunnel : TunnelHandler) (net : Net) (addr : String)
    (r : Except Error Conn) (hcc : tunnel.ConnContainer = none)
    (hd : tunnel.ConnectDial net "tcp" addr = some r) :
    tunnel.acquire net addr = ([.connectDial "tcp" addr r.toOption], some r) := by
  simp [TunnelHandler.acquire, hcc, dial_eq _ _ _ _ hd]

/-- The three ways target acquisition can run once `tunnel.Ctx` is known to be set. -/
theorem acquire_cases (tunnel : TunnelHandler) (net : Net) (addr : String) (ctx : Context)
    (h : tunnel.Ctx = some ctx) :
    (∃ cc c, tunnel.ConnContainer = some cc ∧ cc.Get addr = .ok c ∧
      tunnel.acquire net addr = ([.containerGet addr (some c)], some (.ok c))) ∨
    (∃ cc err r, tunnel.ConnContainer = some cc ∧ cc.Get addr = .error err ∧
      tunnel.ConnectDial net "tcp" addr = some r ∧
      tunnel.acquire net addr =
        ([.containerGet addr none, .connectDial "tcp" addr r.toOption], some r)) ∨
    (∃ r, tunnel.ConnContainer = none ∧ tunnel.ConnectDial net "tcp" addr = some r ∧
      tunnel.acquire net addr = ([.connectDial "tcp" addr r.toOption], some r)) := by
  obtain ⟨r, hr⟩ := connectDial_isSome tunnel net "tcp" addr ctx h
  cases hcc : tunnel.ConnContainer with
  | none => exact Or.inr (Or.inr ⟨r, rfl, hr, acquire_of_no_container _ _ _ _ hcc hr⟩)
  | some cc =>
    cases hget : cc.Get addr with
    | ok c => exact Or.inl ⟨cc, c, rfl, hget, acquire_of_get_ok _ _ _ _ _ hcc hget⟩
    | error err =>
      exact Or.inr (Or.inl ⟨cc, err, r, rfl, hget, hr,
        acquire_of_get_error _ _ _ _ _ _ hcc hget hr⟩)

theorem acquire_events (tunnel : TunnelHandler) (net : Net) (addr : String) (ctx : Context)
    (h : tunnel.Ctx = some ctx) :
    ∀ e ∈ (tunnel.acquire net addr).1,
      (∃ r, e = .containerGet addr r) ∨ (∃ r, e = .connectDial "tcp" addr r) := by
  rcases acquire_cases tunnel net addr ctx h with
    ⟨_, c, _, _, he⟩ | ⟨_, _, r, _, _, _, he⟩ | ⟨r, _, _, he⟩ <;> rw [he] <;> simp

/-- The ways the routine can reach the `go` statement or end before it, after a hijack that
succeeded and with `tunnel.Ctx` set. -/
theorem start_cases (tunnel : TunnelHandler) (net : Net) (req : Request) (ctx : Context)
    (h : tunnel.Ctx = some ctx) :
    (∃ evs err, resolve ctx req = (evs, .error err) ∧
      tunnel.start net (.ok ()) req = ⟨evs ++ ConnError, none, false, .returned, .idle⟩) ∨
    (∃ evs addr casc evs2 err, resolve ctx req = (evs, .ok (addr, casc)) ∧
      tunnel.acquire net addr = (evs2, some (.error err)) ∧
      tunnel.start net (.ok ()) req =
        ⟨evs ++ evs2 ++ ConnError, none, casc, .returned, .idle⟩) ∨
    (∃ evs addr casc evs2 c, resolve ctx req = (evs, .ok (addr, casc)) ∧
      tunnel.acquire net addr = (evs2, some (.ok c)) ∧
      tunnel.start net (.ok ()) req =
        ⟨evs ++ evs2 ++ [handshake req casc c, .go], some c, casc, .copyGet, .get⟩) := by
  unfold TunnelHandler.start
  simp only [h]
  rcases hr : resolve ctx req with ⟨evs, _ | ⟨addr, casc⟩⟩
  · exact Or.inl ⟨evs, _, rfl, rfl⟩
  · have hne : ∃ evs2 r, tunnel.acquire net addr = (evs2, some r) := by
      rcases acquire_cases tunnel net addr ctx h with
        ⟨_, c, _, _, he⟩ | ⟨_, _, r, _, _, _, he⟩ | ⟨r, _, _, he⟩ <;> exact ⟨_, _, he⟩
    obtain ⟨evs2, r, ha⟩ := hne
    cases r with
    | error err => exact Or.inr (Or.inl ⟨evs, addr, casc, evs2, err, rfl, ha, by simp [ha]⟩)
    | ok c => exact Or.inr (Or.inr ⟨evs, addr, casc, evs2, c, rfl, ha, by simp [ha]⟩)

theorem start_shape (tunnel : TunnelHandler) (net : Net) (hijack : Except Error Unit)
    (req : Request) (c : Conn) (h : (tunnel.start net hijack req).targetConn = some c) :
    (tunnel.start net hijack req).main = .copyGet ∧ (tunnel.start net hijack req).gor = .get := by
  cases hijack with
  | error err => simp [TunnelHandler.start] at h
  | ok u =>
    cases hctx : tunnel.Ctx with
    | none => simp [TunnelHandler.start, hctx] at h
    | some ctx =>
      rcases start_cases tunnel net req ctx hctx with
        ⟨_, _, _, hs⟩ | ⟨_, _, _, _, _, _, _, hs⟩ | ⟨_, _, _, _, _, _, _, hs⟩
      · rw [hs] at h; simp at h
      · rw [hs] at h; simp at h
      · rw [hs]; exact ⟨rfl, rfl⟩
/-! ## The relay invariant -/

theorem step_of_no_target (tunnel : TunnelHandler) (s : Session) (k : Tick)
    (h : s.targetConn = none) : tunnel.step s k = s := by
  simp [TunnelHandler.step, h]

theorem foldl_step_of_no_target (tunnel : TunnelHandler) (sched : List Tick) (s : Session)
    (h : s.targetConn = none) : sched.foldl tunnel.step s = s := by
  induction sched with
  | nil => rfl
  | cons k ks ih => rw [List.foldl_cons, step_of_no_target tunnel s k h, ih]

theorem filter_snoc_of_true {p : Event → Bool} (l : List Event) (e : Event) (h : p e = true) :
    (l ++ [e]).filter p = l.filter p ++ [e] := by
  simp [List.filter_append, h]

theorem filter_snoc_of_false {p : Event → Bool} (l : List Event) (e : Event) (h : p e = false) :
    (l ++ [e]).filter p = l.filter p := by
  simp [List.filter_append, h]

theorem relayInv_push_main {tunnel : TunnelHandler} {c : Conn} {tr0 : List Event} {casc : Bool}
    {s : Session} (h : RelayInv tunnel c tr0 casc s) (e : Event) (pc : MainPc)
    (he : e.ofMain = true) (he2 : e.ofGoroutine = false)
    (hs : ∀ l, MainShape tunnel c s.main l → MainShape tunnel c pc (l ++ [e])) :
    RelayInv tunnel c tr0 casc { s with trace := s.trace ++ [e], main := pc } := by
  obtain ⟨ht, hc, ext, htr, hall, hm, hg⟩ := h
  refine ⟨ht, hc, ext ++ [e], ?_, ?_, ?_, ?_⟩
  · simp [htr]
  · intro x hx
    rcases List.mem_append.1 hx with hx | hx
    · exact hall x hx
    · rw [List.mem_singleton.1 hx]; exact Or.inl he
  · rw [filter_snoc_of_true _ _ he]; exact hs _ hm
  · rw [filter_snoc_of_false _ _ he2]; exact hg

theorem relayInv_push_goroutine {tunnel : TunnelHandler} {c : Conn} {tr0 : List Event}
    {casc : Bool} {s : Session} (h : RelayInv tunnel c tr0 casc s) (e : Event) (pc : GoPc)
    (he : e.ofGoroutine = true) (he2 : e.ofMain = false)
    (hs : ∀ l, GoShape tunnel c s.gor l → GoShape tunnel c pc (l ++ [e])) :
    RelayInv tunnel c tr0 casc { s with trace := s.trace ++ [e], gor := pc } := by
  obtain ⟨ht, hc, ext, htr, hall, hm, hg⟩ := h
  refine ⟨ht, hc, ext ++ [e], ?_, ?_, ?_, ?_⟩
  · simp [htr]
  · intro x hx
    rcases List.mem_append.1 hx with hx | hx
    · exact hall x hx
    · rw [List.mem_singleton.1 hx]; exact Or.inr he
  · rw [filter_snoc_of_false _ _ he2]; exact hm
  · rw [filter_snoc_of_true _ _ he]; exact hs _ hg

theorem relayInv_step {tunnel : TunnelHandler} {c : Conn} {tr0 : List Event} {casc : Bool}
    {s : Session} (h : RelayInv tunnel c tr0 casc s) (k : Tick) :
    RelayInv tunnel c tr0 casc (tunnel.step s k) := by
  have ht := h.target
  obtain ⟨task, buf, res⟩ := k
  cases task with
  | main =>
    cases hpc : s.main with
    | copyGet =>
      have := relayInv_push_main h (.bufGet tunnel.buffer .targetToClient buf) (.copying buf) rfl rfl
        (by rw [hpc]; rintro l rfl; exact ⟨[], rfl⟩)
      simpa [TunnelHandler.step, ht, hpc] using this
    | copying b =>
      cases res with
      | chunk data =>
        have := relayInv_push_main h (.copied .targetToClient c data) (.copying b) rfl rfl
          (by rw [hpc]; rintro l ⟨ds, rfl⟩; exact ⟨ds ++ [data], by simp⟩)
        rw [← hpc] at this
        simpa [TunnelHandler.step, ht, hpc] using this
      | eof =>
        have := relayInv_push_main h (.copyDone .targetToClient none) (.copyPut b) rfl rfl
          (by rw [hpc]; rintro l ⟨ds, rfl⟩; exact ⟨ds, none, by simp⟩)
        simpa [TunnelHandler.step, ht, hpc, CopyResult.error?] using this
      | err e =>
        have := relayInv_push_main h (.copyDone .targetToClient (some e)) (.copyPut b) rfl rfl
          (by rw [hpc]; rintro l ⟨ds, rfl⟩; exact ⟨ds, some e, by simp⟩)
        simpa [TunnelHandler.step, ht, hpc, CopyResult.error?] using this
    | copyPut b =>
      have := relayInv_push_main h (.bufPut tunnel.buffer .targetToClient b) .deferred rfl rfl
        (by rw [hpc]; rintro l ⟨ds, r, rfl⟩; exact ⟨b, ds, r, by simp⟩)
      simpa [TunnelHandler.step, ht, hpc] using this
    | deferred =>
      have hd : (tunnel.deferred c).ofMain = true ∧ (tunnel.deferred c).ofGoroutine = false := by
        unfold TunnelHandler.deferred; cases tunnel.ConnContainer <;> exact ⟨rfl, rfl⟩
      have := relayInv_push_main h (tunnel.deferred c) .returned hd.1 hd.2
        (by rw [hpc]; rintro l ⟨b, ds, r, rfl⟩; exact ⟨b, ds, r, by simp⟩)
      simpa [TunnelHandler.step, ht, hpc] using this
    | returned => simpa [TunnelHandler.step, ht, hpc] using h
    | panicked => simpa [TunnelHandler.step, ht, hpc] using h
  | goroutine =>
    cases hpc : s.gor with
    | idle => simpa [TunnelHandler.step, ht, hpc] using h
    | get =>
      have := relayInv_push_goroutine h (.bufGet tunnel.buffer .clientToTarget buf) (.copying buf) rfl rfl
        (by rw [hpc]; rintro l rfl; exact ⟨[], rfl⟩)
      simpa [TunnelHandler.step, ht, hpc] using this
    | copying b =>
      cases res with
      | chunk data =>
        have := relayInv_push_goroutine h (.copied .clientToTarget c data) (.copying b) rfl rfl
          (by rw [hpc]; rintro l ⟨ds, rfl⟩; exact ⟨ds ++ [data], by simp⟩)
        rw [← hpc] at this
        simpa [TunnelHandler.step, ht, hpc] using this
      | eof =>
        have := relayInv_push_goroutine h (.copyDone .clientToTarget none) (.put b) rfl rfl
          (by rw [hpc]; rintro l ⟨ds, rfl⟩; exact ⟨ds, none, by simp⟩)
        simpa [TunnelHandler.step, ht, hpc, CopyResult.error?] using this
      | err e =>
        have := relayInv_push_goroutine h (.copyDone .clientToTarget (some e)) (.put b) rfl rfl
          (by rw [hpc]; rintro l ⟨ds, rfl⟩; exact ⟨ds, some e, by simp⟩)
        simpa [TunnelHandler.step, ht, hpc, CopyResult.error?] using this
    | put b =>
      have := relayInv_push_goroutine h (.bufPut tunnel.buffer .clientToTarget b) .close rfl rfl
        (by rw [hpc]; rintro l ⟨ds, r, rfl⟩; exact ⟨b, ds, r, by simp⟩)
      simpa [TunnelHandler.step, ht, hpc] using this
    | close =>
      have := relayInv_push_goroutine h .clientClose .done rfl rfl
        (by rw [hpc]; rintro l ⟨b, ds, r, rfl⟩; exact ⟨b, ds, r, by simp⟩)
      simpa [TunnelHandler.step, ht, hpc] using this
    | done => simpa [TunnelHandler.step, ht, hpc] using h

theorem relayInv_foldl {tunnel : TunnelHandler} {c : Conn} {tr0 : List Event} {casc : Bool}
    (sched : List Tick) {s : Session} (h : RelayInv tunnel c tr0 casc s) :
    RelayInv tunnel c tr0 casc (sched.foldl tunnel.step s) := by
  induction sched generalizing s with
  | nil => exact h
  | cons k ks ih => exact ih (relayInv_step h k)


theorem ServeHTTP_of_no_target (tunnel : TunnelHandler) (net : Net)
    (hijack : Except Error Unit) (req : Request) (sched : List Tick)
    (h : (tunnel.start net hijack req).targetConn = none) :
    tunnel.ServeHTTP net hijack req sched = tunnel.start net hijack req :=
  foldl_step_of_no_target tunnel sched _ h

theorem ServeHTTP_relayInv (tunnel : TunnelHandler) (net : Net) (hijack : Except Error Unit)
    (req : Request) (sched : List Tick) (c : Conn)
    (h : (tunnel.start net hijack req).targetConn = some c) :
    RelayInv tunnel c (tunnel.start net hijack req).trace
      (tunnel.start net hijack req).isCascadeProxy (tunnel.ServeHTTP net hijack req sched) := by
  obtain ⟨hm, hg⟩ := start_shape tunnel net hijack req c h
  refine relayInv_foldl sched ⟨h, rfl, [], by simp, by simp, ?_, ?_⟩
  · rw [hm]; rfl
  · rw [hg]; rfl

theorem filter_eq_nil_of_forall {p : Event → Bool} {l : List Event}
    (h : ∀ e ∈ l, p e = false) : l.filter p = [] := by
  rw [List.filter_eq_nil_iff]
  intro e he
  simp [h e he]


/-! ## Consequences of the relay invariant -/

theorem deferred_cases (tunnel : TunnelHandler) (c : Conn) :
    tunnel.deferred c = .containerPut c ∨ tunnel.deferred c = .targetClose c := by
  unfold TunnelHandler.deferred
  cases tunnel.ConnContainer
  · exact Or.inr rfl
  · exact Or.inl rfl

theorem mainShape_relayEvent {tunnel : TunnelHandler} {c : Conn} {pc : MainPc} {l : List Event}
    (h : MainShape tunnel c pc l) : ∀ e ∈ l, RelayEvent tunnel c e := by
  have hd := deferred_cases tunnel c
  intro e he
  cases pc with
  | copyGet => simp [MainShape] at h; simp [h] at he
  | copying b =>
    obtain ⟨ds, rfl⟩ := h
    simp at he
    rcases he with rfl | ⟨data, _, rfl⟩
    · exact Or.inl ⟨_, _, rfl⟩
    · exact Or.inr (Or.inl ⟨_, _, rfl⟩)
  | copyPut b =>
    obtain ⟨ds, r, rfl⟩ := h
    simp at he
    rcases he with rfl | ⟨data, _, rfl⟩ | rfl
    · exact Or.inl ⟨_, _, rfl⟩
    · exact Or.inr (Or.inl ⟨_, _, rfl⟩)
    · exact Or.inr (Or.inr (Or.inl ⟨_, _, rfl⟩))
  | deferred =>
    obtain ⟨b, ds, r, rfl⟩ := h
    simp at he
    rcases he with rfl | ⟨data, _, rfl⟩ | rfl | rfl
    · exact Or.inl ⟨_, _, rfl⟩
    · exact Or.inr (Or.inl ⟨_, _, rfl⟩)
    · exact Or.inr (Or.inr (Or.inl ⟨_, _, rfl⟩))
    · exact Or.inr (Or.inr (Or.inr (Or.inl ⟨_, _, rfl⟩)))
  | returned =>
    obtain ⟨b, ds, r, rfl⟩ := h
    simp at he
    rcases he with rfl | ⟨data, _, rfl⟩ | rfl | rfl | rfl
    · exact Or.inl ⟨_, _, rfl⟩
    · exact Or.inr (Or.inl ⟨_, _, rfl⟩)
    · exact Or.inr (Or.inr (Or.inl ⟨_, _, rfl⟩))
    · exact Or.inr (Or.inr (Or.inr (Or.inl ⟨_, _, rfl⟩)))
    · rcases hd with hd | hd <;> rw [hd]
      · exact Or.inr (Or.inr (Or.inr (Or.inr (Or.inr (Or.inl rfl)))))
      · exact Or.inr (Or.inr (Or.inr (Or.inr (Or.inr (Or.inr rfl)))))
  | panicked => exact absurd h (by simp [MainShape])

theorem goShape_relayEvent {tunnel : TunnelHandler} {c : Conn} {pc : GoPc} {l : List Event}
    (h : GoShape tunnel c pc l) : ∀ e ∈ l, RelayEvent tunnel c e := by
  intro e he
  cases pc with
  | idle => exact absurd h (by simp [GoShape])
  | get => simp [GoShape] at h; simp [h] at he
  | copying b =>
    obtain ⟨ds, rfl⟩ := h
    simp at he
    rcases he with rfl | ⟨data, _, rfl⟩
    · exact Or.inl ⟨_, _, rfl⟩
    · exact Or.inr (Or.inl ⟨_, _, rfl⟩)
  | put b =>
    obtain ⟨ds, r, rfl⟩ := h
    simp at he
    rcases he with rfl | ⟨data, _, rfl⟩ | rfl
    · exact Or.inl ⟨_, _, rfl⟩
    · exact Or.inr (Or.inl ⟨_, _, rfl⟩)
    · exact Or.inr (Or.inr (Or.inl ⟨_, _, rfl⟩))
  | close =>
    obtain ⟨b, ds, r, rfl⟩ := h
    simp at he
    rcases he with rfl | ⟨data, _, rfl⟩ | rfl | rfl
    · exact Or.inl ⟨_, _, rfl⟩
    · exact Or.inr (Or.inl ⟨_, _, rfl⟩)
    · exact Or.inr (Or.inr (Or.inl ⟨_, _, rfl⟩))
    · exact Or.inr (Or.inr (Or.inr (Or.inl ⟨_, _, rfl⟩)))
  | done =>
    obtain ⟨b, ds, r, rfl⟩ := h
    simp at he
    rcases he with rfl | ⟨data, _, rfl⟩ | rfl | rfl | rfl
    · exact Or.inl ⟨_, _, rfl⟩
    · exact Or.inr (Or.inl ⟨_, _, rfl⟩)
    · exact Or.inr (Or.inr (Or.inl ⟨_, _, rfl⟩))
    · exact Or.inr (Or.inr (Or.inr (Or.inl ⟨_, _, rfl⟩)))
    · exact Or.inr (Or.inr (Or.inr (Or.inr (Or.inl rfl))))

/-- Past the `go` statement the trace only grows by events of the relay, and the events of
each task appear in it in program order. -/
theorem relayInv_ext {tunnel : TunnelHandler} {c : Conn} {tr0 : List Event} {casc : Bool}
    {s : Session} (h : RelayInv tunnel c tr0 casc s) :
    ∃ ext : List Event, s.trace = tr0 ++ ext ∧ (∀ e ∈ ext, RelayEvent tunnel c e) ∧
      MainShape tunnel c s.main (ext.filter Event.ofMain) ∧
      GoShape tunnel c s.gor (ext.filter Event.ofGoroutine) := by
  obtain ⟨_, _, ext, htr, hall, hm, hg⟩ := h
  refine ⟨ext, htr, ?_, hm, hg⟩
  intro e he
  rcases hall e he with h1 | h1
  · exact mainShape_relayEvent hm e (List.mem_filter.2 ⟨he, h1⟩)
  · exact goShape_relayEvent hg e (List.mem_filter.2 ⟨he, h1⟩)

theorem relayEvent_acquires {tunnel : TunnelHandler} {c : Conn} {e : Event}
    (h : RelayEvent tunnel c e) : e.acquires = false := by
  rcases h with ⟨_, _, rfl⟩ | ⟨_, _, rfl⟩ | ⟨_, _, rfl⟩ | ⟨_, _, rfl⟩ | rfl | rfl | rfl <;> rfl

theorem relayEvent_isHandshake {tunnel : TunnelHandler} {c : Conn} {e : Event}
    (h : RelayEvent tunnel c e) : e.isHandshake = false := by
  rcases h with ⟨_, _, rfl⟩ | ⟨_, _, rfl⟩ | ⟨_, _, rfl⟩ | ⟨_, _, rfl⟩ | rfl | rfl | rfl <;> rfl

theorem handshake_cases (req : Request) (casc : Bool) (c : Conn) :
    (casc = true ∧ handshake req casc c = .reqWrite req c) ∨
      (casc = false ∧ handshake req casc c = .clientWrite HttpTunnelOk) := by
  cases casc
  · exact Or.inr ⟨rfl, rfl⟩
  · exact Or.inl ⟨rfl, rfl⟩

theorem handshake_acquires (req : Request) (casc : Bool) (c : Conn) :
    (handshake req casc c).acquires = false := by
  cases casc <;> rfl

/-- Outcome of a session whose hijack succeeded, whose `tunnel.Ctx` is set and whose proxy
function did not fail: either acquisition failed and the routine ended with the failure
signal, or the relay was started on the acquired connection. -/
theorem ServeHTTP_resolved (tunnel : TunnelHandler) (net : Net) (req : Request)
    (sched : List Tick) (ctx : Context) (evs : List Event) (addr : String) (casc : Bool)
    (hctx : tunnel.Ctx = some ctx) (hres : resolve ctx req = (evs, .ok (addr, casc))) :
    (∃ err, (tunnel.acquire net addr).2 = some (.error err) ∧
      tunnel.ServeHTTP net (.ok ()) req sched =
        ⟨evs ++ (tunnel.acquire net addr).1 ++ ConnError, none, casc, .returned, .idle⟩) ∨
    (∃ c ext, (tunnel.acquire net addr).2 = some (.ok c) ∧
      (tunnel.ServeHTTP net (.ok ()) req sched).trace =
        evs ++ (tunnel.acquire net addr).1 ++ [handshake req casc c, .go] ++ ext ∧
      (tunnel.ServeHTTP net (.ok ()) req sched).targetConn = some c ∧
      (tunnel.ServeHTTP net (.ok ()) req sched).isCascadeProxy = casc ∧
      (∀ e ∈ ext, RelayEvent tunnel c e) ∧
      MainShape tunnel c (tunnel.ServeHTTP net (.ok ()) req sched).main
        (ext.filter Event.ofMain) ∧
      GoShape tunnel c (tunnel.ServeHTTP net (.ok ()) req sched).gor
        (ext.filter Event.ofGoroutine)) := by
  rcases start_cases tunnel net req ctx hctx with
    ⟨_, _, hr, _⟩ | ⟨evs', addr', casc', evs2, err, hr, ha, hs⟩ |
    ⟨evs', addr', casc', evs2, c, hr, ha, hs⟩
  · rw [hres] at hr; simp at hr
  · rw [hres] at hr
    simp only [Prod.mk.injEq, Except.ok.injEq] at hr
    obtain ⟨rfl, rfl, rfl⟩ := hr
    refine Or.inl ⟨err, by rw [ha], ?_⟩
    rw [ServeHTTP_of_no_target _ _ _ _ _ (by rw [hs]), hs, ha]
  · rw [hres] at hr
    simp only [Prod.mk.injEq, Except.ok.injEq] at hr
    obtain ⟨rfl, rfl, rfl⟩ := hr
    have hinv := ServeHTTP_relayInv tunnel net (.ok ()) req sched c (by rw [hs])
    obtain ⟨ext, htr, hall, hm, hg⟩ := relayInv_ext hinv
    refine Or.inr ⟨c, ext, by rw [ha], ?_, hinv.target, ?_, hall, hm, hg⟩
    · rw [htr, hs, ha]
    · rw [hinv.cascade, hs]

theorem ServeHTTP_acquires (tunnel : TunnelHandler) (net : Net) (req : Request)
    (sched : List Tick) (ctx : Context) (evs : List Event) (addr : String) (casc : Bool)
    (hctx : tunnel.Ctx = some ctx) (hres : resolve ctx req = (evs, .ok (addr, casc))) :
    (tunnel.ServeHTTP net (.ok ()) req sched).trace.filter Event.acquires =
      (tunnel.acquire net addr).1 := by
  have hevs : evs.filter Event.acquires = [] := by
    apply filter_eq_nil_of_forall
    intro e he
    have := resolve_events ctx req
    rw [hres] at this
    rw [this e he]; rfl
  have hacq : (tunnel.acquire net addr).1.filter Event.acquires = (tunnel.acquire net addr).1 := by
    rw [List.filter_eq_self]
    intro e he
    rcases acquire_events tunnel net addr ctx hctx e he with ⟨r, rfl⟩ | ⟨r, rfl⟩ <;> rfl
  rcases ServeHTTP_resolved tunnel net req sched ctx evs addr casc hctx hres with
    ⟨err, _, hs⟩ | ⟨c, ext, _, htr, _, _, hall, _, _⟩
  · rw [hs]
    simp only [List.filter_append, hevs, hacq]
    simp [ConnError, Event.acquires]
  · rw [htr]
    have hext : ext.filter Event.acquires = [] :=
      filter_eq_nil_of_forall fun e he => relayEvent_acquires (hall e he)
    have hhs : [handshake req casc c, Event.go].filter Event.acquires = [] :=
      filter_eq_nil_of_forall fun e he => by
        simp at he
        rcases he with rfl | rfl
        · exact handshake_acquires req casc c
        · rfl
    simp only [List.filter_append, hevs, hacq, hext, hhs]
    simp

theorem ServeHTTP_unresolved (tunnel : TunnelHandler) (net : Net) (req : Request)
    (sched : List Tick) (ctx : Context) (evs : List Event) (err : Error)
    (hctx : tunnel.Ctx = some ctx) (hres : resolve ctx req = (evs, .error err)) :
    tunnel.ServeHTTP net (.ok ()) req sched =
      ⟨evs ++ ConnError, none, false, .returned, .idle⟩ := by
  have hs : tunnel.start net (.ok ()) req = ⟨evs ++ ConnError, none, false, .returned, .idle⟩ := by
    simp [TunnelHandler.start, hctx, hres]
  rw [ServeHTTP_of_no_target _ _ _ _ _ (by rw [hs]), hs]

theorem ServeHTTP_of_nil_ctx (tunnel : TunnelHandler) (net : Net) (req : Request)
    (sched : List Tick) (hctx : tunnel.Ctx = none) :
    tunnel.ServeHTTP net (.ok ()) req sched = ⟨[], none, false, .panicked, .idle⟩ := by
  have hs : tunnel.start net (.ok ()) req = ⟨[], none, false, .panicked, .idle⟩ := by
    simp [TunnelHandler.start, hctx]
  rw [ServeHTTP_of_no_target _ _ _ _ _ (by rw [hs]), hs]

theorem ServeHTTP_of_hijack_error (tunnel : TunnelHandler) (net : Net) (req : Request)
    (sched : List Tick) (err : Error) :
    tunnel.ServeHTTP net (.error err) req sched =
      ⟨[.httpError err.msg 502], none, false, .returned, .idle⟩ := by
  have hs : tunnel.start net (.error err) req =
      ⟨[.httpError err.msg 502], none, false, .returned, .idle⟩ := by
    simp [TunnelHandler.start]
  rw [ServeHTTP_of_no_target _ _ _ _ _ (by rw [hs]), hs]

/-- A session that holds a target connection has passed resolution and acquisition and is in
its relay. -/
theorem ServeHTTP_of_target (tunnel : TunnelHandler) (net : Net) (hijack : Except Error Unit)
    (req : Request) (sched : List Tick) (c : Conn)
    (h : (tunnel.ServeHTTP net hijack req sched).targetConn = some c) :
    ∃ ctx evs addr casc ext, tunnel.Ctx = some ctx ∧
      resolve ctx req = (evs, .ok (addr, casc)) ∧
      (tunnel.acquire net addr).2 = some (.ok c) ∧
      (tunnel.ServeHTTP net hijack req sched).trace =
        evs ++ (tunnel.acquire net addr).1 ++ [handshake req casc c, .go] ++ ext ∧
      (tunnel.ServeHTTP net hijack req sched).isCascadeProxy = casc ∧
      (∀ e ∈ ext, RelayEvent tunnel c e) ∧
      MainShape tunnel c (tunnel.ServeHTTP net hijack req sched).main
        (ext.filter Event.ofMain) ∧
      GoShape tunnel c (tunnel.ServeHTTP net hijack req sched).gor
        (ext.filter Event.ofGoroutine) := by
  cases hijack with
  | error err => rw [ServeHTTP_of_hijack_error] at h; simp at h
  | ok u =>
    cases hctx : tunnel.Ctx with
    | none => rw [ServeHTTP_of_nil_ctx _ _ _ _ hctx] at h; simp at h
    | some ctx =>
      rcases hr : resolve ctx req with ⟨evs, err | ⟨addr, casc⟩⟩
      · rw [ServeHTTP_unresolved _ _ _ _ _ _ _ hctx hr] at h; simp at h
      · rcases ServeHTTP_resolved tunnel net req sched ctx evs addr casc hctx hr with
          ⟨err, _, hs⟩ | ⟨c', ext, ha, htr, ht, hcasc, hall, hm, hg⟩
        · rw [hs] at h; simp at h
        · rw [ht] at h
          cases h
          exact ⟨ctx, evs, addr, casc, ext, rfl, hr, ha, htr, hcasc, hall, hm, hg⟩

theorem resolved_acquiresAt (tunnel : TunnelHandler) (net : Net) (req : Request)
    (sched : List Tick) (ctx : Context) (evs : List Event) (addr : String) (casc : Bool)
    (hctx : tunnel.Ctx = some ctx) (hres : resolve ctx req = (evs, .ok (addr, casc))) :
    (tunnel.ServeHTTP net (.ok ()) req sched).isCascadeProxy = casc ∧
      AcquiresAt (tunnel.ServeHTTP net (.ok ()) req sched).trace addr := by
  have hf := ServeHTTP_acquires tunnel net req sched ctx evs addr casc hctx hres
  refine ⟨?_, ?_, ?_⟩
  · rcases ServeHTTP_resolved tunnel net req sched ctx evs addr casc hctx hres with
      ⟨err, _, hs⟩ | ⟨c, ext, _, _, _, hcasc, _⟩
    · rw [hs]
    · exact hcasc
  · have hne : ∃ e, e ∈ (tunnel.acquire net addr).1 := by
      rcases acquire_cases tunnel net addr ctx hctx with
        ⟨_, c, _, _, he⟩ | ⟨_, _, r, _, _, _, he⟩ | ⟨r, _, _, he⟩ <;> rw [he] <;>
        exact ⟨_, List.mem_cons_self _ _⟩
    obtain ⟨e, he⟩ := hne
    rw [← hf] at he
    exact ⟨e, (List.mem_filter.1 he).1, (List.mem_filter.1 he).2⟩
  · intro e he ha
    have : e ∈ (tunnel.acquire net addr).1 := by
      rw [← hf]; exact List.mem_filter.2 ⟨he, ha⟩
    exact acquire_events tunnel net addr ctx hctx e this

theorem filter_of_imp {p q : Event → Bool} (h : ∀ e, q e = true → p e = true) (l : List Event) :
    l.filter q = (l.filter p).filter q := by
  rw [List.filter_filter]
  congr 1
  funext e
  cases hq : q e
  · simp
  · simp [h e hq]

theorem established_acquires (e : Event) (h : e.established = true) : e.acquires = true := by
  cases e <;> first | rfl | simp [Event.established] at h

/-- What acquisition records and returns: exactly one recorded attempt produced the
connection it returns, and none produced a connection when it returns an error. -/
theorem acquire_established (tunnel : TunnelHandler) (net : Net) (addr : String)
    (ctx : Context) (h : tunnel.Ctx = some ctx) :
    (∀ c, (tunnel.acquire net addr).2 = some (.ok c) →
      (tunnel.acquire net addr).1.filter Event.established = [.containerGet addr (some c)] ∨
      (tunnel.acquire net addr).1.filter Event.established =
        [.connectDial "tcp" addr (some c)]) ∧
    (∀ err, (tunnel.acquire net addr).2 = some (.error err) →
      (tunnel.acquire net addr).1.filter Event.established = []) := by
  rcases acquire_cases tunnel net addr ctx h with
    ⟨_, c, _, _, he⟩ | ⟨_, _, r, _, _, _, he⟩ | ⟨r, _, _, he⟩
  · rw [he]
    refine ⟨fun c2 h2 => Or.inl ?_, fun err h2 => ?_⟩
    · simp only [Option.some.injEq, Except.ok.injEq] at h2
      subst h2; rfl
    · simp at h2
  · rw [he]
    refine ⟨fun c2 h2 => Or.inr ?_, fun err h2 => ?_⟩
    · simp only [Option.some.injEq] at h2
      subst h2; rfl
    · simp only [Option.some.injEq] at h2
      subst h2; rfl
  · rw [he]
    refine ⟨fun c2 h2 => Or.inr ?_, fun err h2 => ?_⟩
    · simp only [Option.some.injEq] at h2
      subst h2; rfl
    · simp only [Option.some.injEq] at h2
      subst h2; rfl

/-- Trace of a session that holds target connection `c`: the call of the proxy function if
any, the acquisition attempts, the handshake, the `go` statement, then events of the relay. -/
theorem acquired_trace (tunnel : TunnelHandler) (net : Net) (req : Request)
    (sched : List Tick) (c : Conn)
    (h : (tunnel.ServeHTTP net (.ok ()) req sched).targetConn = some c) :
    ∃ evs evs2 ext,
      (tunnel.ServeHTTP net (.ok ()) req sched).trace =
        evs ++ evs2 ++
          [handshake req (tunnel.ServeHTTP net (.ok ()) req sched).isCascadeProxy c, .go] ++
          ext ∧
      (∀ e ∈ evs, e = .proxy req) ∧
      (∀ e ∈ evs2, e.acquires = true) ∧
      (∃ addr, evs2.filter Event.established = [.containerGet addr (some c)] ∨
        evs2.filter Event.established = [.connectDial "tcp" addr (some c)]) ∧
      (∀ e ∈ ext, RelayEvent tunnel c e) ∧
      MainShape tunnel c (tunnel.ServeHTTP net (.ok ()) req sched).main
        (ext.filter Event.ofMain) ∧
      GoShape tunnel c (tunnel.ServeHTTP net (.ok ()) req sched).gor
        (ext.filter Event.ofGoroutine) := by
  obtain ⟨ctx, evs, addr, casc, ext, hctx, hres, ha, htr, hcasc, hall, hm, hg⟩ :=
    ServeHTTP_of_target tunnel net (.ok ()) req sched c h
  refine ⟨evs, (tunnel.acquire net addr).1, ext, ?_, ?_, ?_, ?_, hall, hm, hg⟩
  · rw [hcasc]; exact htr
  · have := resolve_events ctx req
    rw [hres] at this
    exact this
  · intro e he
    rcases acquire_events tunnel net addr ctx hctx e he with ⟨r, rfl⟩ | ⟨r, rfl⟩ <;> rfl
  · exact ⟨addr, (acquire_established tunnel net addr ctx hctx).1 c ha⟩

theorem acquire_isHandshake {e : Event} (h : e.acquires = true) : e.isHandshake = false := by
  cases e <;> first | rfl | simp [Event.acquires] at h

theorem acquire_onClient {e : Event} (h : e.acquires = true) : e.onClient = false := by
  cases e <;> first | rfl | simp [Event.acquires] at h

theorem handshake_isHandshake (req : Request) (casc : Bool) (c : Conn) :
    (handshake req casc c).isHandshake = true := by
  cases casc <;> rfl

theorem acquired_handshake (tunnel : TunnelHandler) (net : Net) (req : Request)
    (sched : List Tick) (c : Conn)
    (h : (tunnel.ServeHTTP net (.ok ()) req sched).targetConn = some c) :
    (tunnel.ServeHTTP net (.ok ()) req sched).trace.filter Event.isHandshake =
      [handshake req (tunnel.ServeHTTP net (.ok ()) req sched).isCascadeProxy c] := by
  obtain ⟨evs, evs2, ext, htr, hevs, hevs2, _, hall, _, _⟩ :=
    acquired_trace tunnel net req sched c h
  rw [htr]
  have h1 : evs.filter Event.isHandshake = [] :=
    filter_eq_nil_of_forall fun e he => by rw [hevs e he]; rfl
  have h2 : evs2.filter Event.isHandshake = [] :=
    filter_eq_nil_of_forall fun e he => acquire_isHandshake (hevs2 e he)
  have h3 : ext.filter Event.isHandshake = [] :=
    filter_eq_nil_of_forall fun e he => relayEvent_isHandshake (hall e he)
  simp only [List.filter_append, h1, h2, h3]
  rw [List.filter_cons_of_pos (handshake_isHandshake _ _ _)]
  rfl

/-! ## Projections of the trace on the two tasks -/

theorem split_at_last {p : Event → Bool} {l pre post xs : List Event} {a : Event}
    (hf : l.filter p = xs ++ [a]) (ha : a ∉ xs) (hp : p a = true)
    (hl : l = pre ++ a :: post) : pre.filter p = xs ∧ post.filter p = [] := by
  subst hl
  rw [List.filter_append, List.filter_cons_of_pos hp] at hf
  rcases List.eq_nil_or_concat (post.filter p) with hB | ⟨B, z, hB⟩
  · rw [hB] at hf
    exact ⟨(List.append_left_inj [a]).1 hf, hB⟩
  · rw [hB] at hf
    have hf2 : (pre.filter p ++ a :: B) ++ [z] = xs ++ [a] := by
      rw [← hf]; simp
    have := List.append_inj' hf2 rfl
    exact absurd (this.1 ▸ (by simp : a ∈ pre.filter p ++ a :: B)) ha

theorem filter_map_copied_nil {p : Event → Bool} (d : Dir) (c : Conn) (ds : List Bytes)
    (h : ∀ data, p (.copied d c data) = false) :
    (ds.map (Event.copied d c)).filter p = [] :=
  filter_eq_nil_of_forall fun e he => by
    obtain ⟨data, _, rfl⟩ := List.mem_map.1 he
    exact h data

theorem filter_map_copied_self (p : Event → Bool) (d : Dir) (c : Conn) (ds : List Bytes)
    (h : ∀ data, p (.copied d c data) = true) :
    (ds.map (Event.copied d c)).filter p = ds.map (Event.copied d c) := by
  rw [List.filter_eq_self]
  intro e he
  obtain ⟨data, _, rfl⟩ := List.mem_map.1 he
  exact h data

/-- In a session that holds target connection `c`, the events of each task, taken from the
whole trace in order, are the ones its program prescribes up to its current statement. -/
theorem acquired_tasks (tunnel : TunnelHandler) (net : Net) (req : Request)
    (sched : List Tick) (c : Conn)
    (h : (tunnel.ServeHTTP net (.ok ()) req sched).targetConn = some c) :
    MainShape tunnel c (tunnel.ServeHTTP net (.ok ()) req sched).main
        ((tunnel.ServeHTTP net (.ok ()) req sched).trace.filter Event.ofMain) ∧
      GoShape tunnel c (tunnel.ServeHTTP net (.ok ()) req sched).gor
        ((tunnel.ServeHTTP net (.ok ()) req sched).trace.filter Event.ofGoroutine) := by
  obtain ⟨evs, evs2, ext, htr, hevs, hevs2, _, hall, hm, hg⟩ :=
    acquired_trace tunnel net req sched c h
  have a1 : ∀ e : Event, e.acquires = true → e.ofMain = false ∧ e.ofGoroutine = false := by
    intro e he
    cases e <;> first | exact ⟨rfl, rfl⟩ | simp [Event.acquires] at he
  have hh : ∀ casc, (handshake req casc c).ofMain = false ∧
      (handshake req casc c).ofGoroutine = false := by
    intro casc; cases casc <;> exact ⟨rfl, rfl⟩
  have m1 : evs.filter Event.ofMain = [] :=
    filter_eq_nil_of_forall fun e he => by rw [hevs e he]; rfl
  have m2 : evs2.filter Event.ofMain = [] :=
    filter_eq_nil_of_forall fun e he => (a1 e (hevs2 e he)).1
  have m3 : [handshake req (tunnel.ServeHTTP net (.ok ()) req sched).isCascadeProxy c,
      Event.go].filter Event.ofMain = [] :=
    filter_eq_nil_of_forall fun e he => by
      simp only [List.mem_cons, List.mem_singleton, List.not_mem_nil, or_false] at he
      rcases he with rfl | rfl
      · exact (hh _).1
      · rfl
  have g1 : evs.filter Event.ofGoroutine = [] :=
    filter_eq_nil_of_forall fun e he => by rw [hevs e he]; rfl
  have g2 : evs2.filter Event.ofGoroutine = [] :=
    filter_eq_nil_of_forall fun e he => (a1 e (hevs2 e he)).2
  have g3 : [handshake req (tunnel.ServeHTTP net (.ok ()) req sched).isCascadeProxy c,
      Event.go].filter Event.ofGoroutine = [] :=
    filter_eq_nil_of_forall fun e he => by
      simp only [List.mem_cons, List.mem_singleton, List.not_mem_nil, or_false] at he
      rcases he with rfl | rfl
      · exact (hh _).2
      · rfl
  constructor
  · have : (tunnel.ServeHTTP net (.ok ()) req sched).trace.filter Event.ofMain =
        ext.filter Event.ofMain := by
      rw [htr]
      simp only [List.filter_append, m1, m2, m3, List.nil_append]
    rw [this]; exact hm
  · have : (tunnel.ServeHTTP net (.ok ()) req sched).trace.filter Event.ofGoroutine =
        ext.filter Event.ofGoroutine := by
      rw [htr]
      simp only [List.filter_append, g1, g2, g3, List.nil_append]
    rw [this]; exact hg

/-! ## Failure before a target connection exists -/

/-- C2: when the proxy function returns an error, or when the container's `Get` (if a container
is configured) and the dial both fail, the client socket sees exactly one write, of
`HTTP/1.1 502 Bad Gateway\r\n\r\n`, followed by its close; nothing is written to a target
connection, the `go` statement is not reached and `ServeHTTP` has returned. -/
theorem tunnel_failure_signal (tunnel : TunnelHandler) (net : Net) (req : Request)
    (sched : List Tick)
    (h : (∃ ctx tr proxy err, tunnel.Ctx = some ctx ∧ ctx.Transport = some tr ∧
            tr.Proxy = some proxy ∧ proxy req = .error err) ∨
         (∃ ctx evs addr casc, tunnel.Ctx = some ctx ∧ resolve ctx req = (evs, .ok (addr, casc)) ∧
            (∀ cc, tunnel.ConnContainer = some cc → ∃ err, cc.Get addr = .error err) ∧
            ∃ err, tunnel.ConnectDial net "tcp" addr = some (.error err))) :
    (tunnel.ServeHTTP net (.ok ()) req sched).trace.filter Event.onClient =
        [.clientWrite (bytesOf "HTTP/1.1 502 Bad Gateway\r\n\r\n"), .clientClose] ∧
      (∀ e ∈ (tunnel.ServeHTTP net (.ok ()) req sched).trace, e.writesTarget = false) ∧
      Event.go ∉ (tunnel.ServeHTTP net (.ok ()) req sched).trace ∧
      (tunnel.ServeHTTP net (.ok ()) req sched).gor = .idle ∧
      (tunnel.ServeHTTP net (.ok ()) req sched).main = .returned ∧
      (tunnel.ServeHTTP net (.ok ()) req sched).targetConn = none := by
  have key : ∃ evs : List Event, (∀ e ∈ evs, e = .proxy req ∨ e.acquires = true) ∧
      ∃ casc, tunnel.start net (.ok ()) req = ⟨evs ++ ConnError, none, casc, .returned, .idle⟩ := by
    rcases h with ⟨ctx, tr, proxy, err, hctx, htr, hp, herr⟩ |
      ⟨ctx, evs, addr, casc, hctx, hres, hget, err, hdial⟩
    · refine ⟨[.proxy req], by simp, false, ?_⟩
      simp [TunnelHandler.start, hctx, resolve, htr, hp, herr]
    · have hevs := resolve_events ctx req
      rw [hres] at hevs
      rcases acquire_cases tunnel net addr ctx hctx with
        ⟨cc, c, hcc, hok, _⟩ | ⟨cc, err2, r, hcc, _, hr, ha⟩ | ⟨r, hcc, hr, ha⟩
      · obtain ⟨e, he⟩ := hget cc hcc
        rw [hok] at he; cases he
      · rw [hdial] at hr
        cases hr
        refine ⟨evs ++ [.containerGet addr none, .connectDial "tcp" addr none], ?_, casc, ?_⟩
        · intro e he
          rcases List.mem_append.1 he with he | he
          · exact Or.inl (hevs e he)
          · right
            simp at he
            rcases he with rfl | rfl <;> rfl
        · simp [TunnelHandler.start, hctx, hres, ha, Except.toOption]
      · rw [hdial] at hr
        cases hr
        refine ⟨evs ++ [.connectDial "tcp" addr none], ?_, casc, ?_⟩
        · intro e he
          rcases List.mem_append.1 he with he | he
          · exact Or.inl (hevs e he)
          · right
            simp at he
            rw [he]; rfl
        · simp [TunnelHandler.start, hctx, hres, ha, Except.toOption]
  obtain ⟨evs, hevs, casc, hs⟩ := key
  have hnt : (tunnel.start net (.ok ()) req).targetConn = none := by rw [hs]
  rw [ServeHTTP_of_no_target _ _ _ _ _ hnt, hs]
  have h1 : ∀ e ∈ evs, e.onClient = false := by
    intro e he
    rcases hevs e he with rfl | ha
    · rfl
    · cases e <;> first | rfl | simp [Event.acquires] at ha
  have h2 : ∀ e ∈ evs, e.writesTarget = false := by
    intro e he
    rcases hevs e he with rfl | ha
    · rfl
    · cases e <;> first | rfl | simp [Event.acquires] at ha
  have h3 : Event.go ∉ evs := by
    intro he
    rcases hevs _ he with h | h
    · cases h
    · simp [Event.acquires] at h
  refine ⟨?_, ?_, ?_, rfl, rfl, rfl⟩
  · simp only [List.filter_append, filter_eq_nil_of_forall h1, List.nil_append]
    rfl
  · intro e he
    rcases List.mem_append.1 he with he | he
    · exact h2 e he
    · simp [ConnError] at he
      rcases he with rfl | rfl <;> rfl
  · intro he
    rcases List.mem_append.1 he with he | he
    · exact h3 he
    · simp [ConnError] at he

theorem tunnel_failure_signal_witness :
    (brokenProxyTunnel.ServeHTTP netUp (.ok ()) sampleReq fullSchedule).trace.filter
          Event.onClient =
        [.clientWrite (bytesOf "HTTP/1.1 502 Bad Gateway\r\n\r\n"), .clientClose] ∧
      (pooledTunnel.ServeHTTP netDown (.ok ()) sampleReq fullSchedule).trace.filter
          Event.onClient =
        [.clientWrite (bytesOf "HTTP/1.1 502 Bad Gateway\r\n\r\n"), .clientClose] :=
  ⟨(tunnel_failure_signal brokenProxyTunnel netUp sampleReq fullSchedule
      (Or.inl ⟨_, _, _, _, rfl, rfl, rfl, rfl⟩)).1,
    (tunnel_failure_signal pooledTunnel netDown sampleReq fullSchedule
      (Or.inr ⟨⟨none, none⟩, [], "example.com:80", false, rfl, rfl,
        fun cc h => ⟨⟨"no idle connection"⟩, by cases h; rfl⟩,
        ⟨⟨"connection refused"⟩, rfl⟩⟩)).1⟩

/-! ## Target resolution and acquisition -/

/-- C3: with `tunnel.Ctx` set, when the proxy function is configured and returns a URL `u`
without error, the session is in cascade mode and every `Get` on the container and every dial
it makes is for `hostAndPort u.Host`; when no proxy function is configured or it returns nil,
the session is not in cascade mode and every `Get` and dial is for
`hostAndPort req.URL.Host`. In both cases at least one such attempt is made. -/
theorem target_address_selection (tunnel : TunnelHandler) (net : Net) (req : Request)
    (sched : List Tick) (ctx : Context) (hctx : tunnel.Ctx = some ctx) :
    (∀ tr proxy u, ctx.Transport = some tr → tr.Proxy = some proxy →
        proxy req = .ok (some u) →
        (tunnel.ServeHTTP net (.ok ()) req sched).isCascadeProxy = true ∧
          AcquiresAt (tunnel.ServeHTTP net (.ok ()) req sched).trace (hostAndPort u.Host)) ∧
      ((ctx.Transport = none ∨ ∃ tr, ctx.Transport = some tr ∧
          (tr.Proxy = none ∨ ∃ proxy, tr.Proxy = some proxy ∧ proxy req = .ok none)) →
        (tunnel.ServeHTTP net (.ok ()) req sched).isCascadeProxy = false ∧
          AcquiresAt (tunnel.ServeHTTP net (.ok ()) req sched).trace
            (hostAndPort req.URL.Host)) := by
  constructor
  · intro tr proxy u htr hp hu
    exact resolved_acquiresAt tunnel net req sched ctx [.proxy req] _ true hctx
      (by simp [resolve, htr, hp, hu])
  · rintro (htr | ⟨tr, htr, hp | ⟨proxy, hp, hu⟩⟩)
    · exact resolved_acquiresAt tunnel net req sched ctx [] _ false hctx
        (by simp [resolve, htr])
    · exact resolved_acquiresAt tunnel net req sched ctx [] _ false hctx
        (by simp [resolve, htr, hp])
    · exact resolved_acquiresAt tunnel net req sched ctx [.proxy req] _ false hctx
        (by simp [resolve, htr, hp, hu])

theorem target_address_selection_witness :
    ((cascadeTunnel.ServeHTTP netUp (.ok ()) sampleReq fullSchedule).isCascadeProxy = true ∧
        AcquiresAt (cascadeTunnel.ServeHTTP netUp (.ok ()) sampleReq fullSchedule).trace
          (hostAndPort "upstream.local:3128")) ∧
      ((decliningProxyTunnel.ServeHTTP netUp (.ok ()) sampleReq fullSchedule).isCascadeProxy
          = false ∧
        AcquiresAt (decliningProxyTunnel.ServeHTTP netUp (.ok ()) sampleReq fullSchedule).trace
          (hostAndPort "example.com")) :=
  ⟨(target_address_selection cascadeTunnel netUp sampleReq fullSchedule _ rfl).1 _ _
      ⟨"upstream.local:3128"⟩ rfl rfl rfl,
    (target_address_selection decliningProxyTunnel netUp sampleReq fullSchedule _ rfl).2
      (Or.inr ⟨_, rfl, Or.inr ⟨_, rfl, rfl⟩⟩)⟩

/-- C4: when a container is configured and its `Get` fails for the resolved target address,
the attempts to obtain a connection are that `Get` followed by exactly one `ConnectDial` over
`tcp` to the same address; and if that dial returns a connection, it becomes the target
connection of the session, the handshake is performed on it, the `go` statement is reached,
every chunk of the relay moves over it, and the failure signal is not written. -/
theorem pool_miss_falls_back_to_dial (tunnel : TunnelHandler) (net : Net) (req : Request)
    (sched : List Tick) (ctx : Context) (evs : List Event) (addr : String) (casc : Bool)
    (cc : ConnContainer) (err : Error) (r : Except Error Conn)
    (hctx : tunnel.Ctx = some ctx) (hres : resolve ctx req = (evs, .ok (addr, casc)))
    (hcc : tunnel.ConnContainer = some cc) (hget : cc.Get addr = .error err)
    (hdial : tunnel.ConnectDial net "tcp" addr = some r) :
    (tunnel.ServeHTTP net (.ok ()) req sched).trace.filter Event.acquires =
        [.containerGet addr none, .connectDial "tcp" addr r.toOption] ∧
      ∀ c, r = .ok c →
        (tunnel.ServeHTTP net (.ok ()) req sched).targetConn = some c ∧
        (tunnel.ServeHTTP net (.ok ()) req sched).trace.filter Event.isHandshake =
          [handshake req casc c] ∧
        Event.go ∈ (tunnel.ServeHTTP net (.ok ()) req sched).trace ∧
        (∀ d c2 data, Event.copied d c2 data ∈
          (tunnel.ServeHTTP net (.ok ()) req sched).trace → c2 = c) ∧
        Event.clientWrite (bytesOf "HTTP/1.1 502 Bad Gateway\r\n\r\n") ∉
          (tunnel.ServeHTTP net (.ok ()) req sched).trace ∧
        (tunnel.ServeHTTP net (.ok ()) req sched).main ≠ .panicked := by
  have ha := acquire_of_get_error tunnel net addr cc err r hcc hget hdial
  have hevs := resolve_events ctx req
  rw [hres] at hevs
  refine ⟨?_, ?_⟩
  · rw [ServeHTTP_acquires tunnel net req sched ctx evs addr casc hctx hres, ha]
  · rintro c rfl
    rcases ServeHTTP_resolved tunnel net req sched ctx evs addr casc hctx hres with
      ⟨err2, he, _⟩ | ⟨c2, ext, hc, htr, ht, _, hall, hm, _⟩
    · rw [ha] at he; simp at he
    · have ha1 : (tunnel.acquire net addr).1 =
          [.containerGet addr none, .connectDial "tcp" addr (some c)] := by rw [ha]; rfl
      have ha2 : (tunnel.acquire net addr).2 = some (.ok c) := by rw [ha]
      rw [ha1] at htr
      rw [ha2] at hc
      simp only [Option.some.injEq, Except.ok.injEq] at hc
      subst hc
      have hhs : (handshake req casc c).isHandshake = true := by cases casc <;> rfl
      refine ⟨ht, ?_, ?_, ?_, ?_, ?_⟩
      · rw [htr]
        have h1 : evs.filter Event.isHandshake = [] :=
          filter_eq_nil_of_forall fun e he => by rw [hevs e he]; rfl
        have h2 : ext.filter Event.isHandshake = [] :=
          filter_eq_nil_of_forall fun e he => relayEvent_isHandshake (hall e he)
        have h3 : [handshake req casc c, Event.go].filter Event.isHandshake =
            [handshake req casc c] := by
          rw [List.filter_cons_of_pos hhs]; rfl
        have h4 : [Event.containerGet addr none,
            Event.connectDial "tcp" addr (some c)].filter Event.isHandshake = [] := rfl
        simp only [List.filter_append, h1, h2, h3, h4]
        rfl
      · rw [htr]; simp
      · intro d c2 data hmem
        rw [htr] at hmem
        simp only [List.mem_append, List.mem_cons, List.mem_singleton] at hmem
        rcases hmem with ((hmem | hmem) | hmem) | hmem
        · cases hevs _ hmem
        · rcases hmem with hmem | hmem | hmem <;> simp at hmem
        · rcases hmem with hmem | hmem | hmem
          · rcases handshake_cases req casc c with ⟨_, h⟩ | ⟨_, h⟩ <;> rw [h] at hmem <;>
              cases hmem
          · cases hmem
          · simp at hmem
        · rcases hall _ hmem with ⟨_, _, h⟩ | ⟨_, _, h⟩ | ⟨_, _, h⟩ | ⟨_, _, h⟩ | h | h | h <;>
            cases h
          rfl
      · intro hmem
        rw [htr] at hmem
        simp only [List.mem_append, List.mem_cons, List.mem_singleton] at hmem
        rcases hmem with ((hmem | hmem) | hmem) | hmem
        · cases hevs _ hmem
        · rcases hmem with hmem | hmem | hmem <;> simp at hmem
        · rcases hmem with hmem | hmem | hmem
          · rcases handshake_cases req casc c with ⟨_, h⟩ | ⟨_, h⟩ <;> rw [h] at hmem
            · cases hmem
            · injection hmem with h1
              revert h1
              decide
          · cases hmem
          · simp at hmem
        · rcases hall _ hmem with ⟨_, _, h⟩ | ⟨_, _, h⟩ | ⟨_, _, h⟩ | ⟨_, _, h⟩ | h | h | h <;>
            cases h
      · intro hp
        rw [hp] at hm
        exact hm

theorem pool_miss_falls_back_to_dial_witness :
    (pooledTunnel.ServeHTTP netUp (.ok ()) sampleReq fullSchedule).trace.filter Event.acquires =
        [.containerGet "example.com:80" none, .connectDial "tcp" "example.com:80" (some 7)] ∧
      ∀ c, (Except.ok 7 : Except Error Conn) = .ok c →
        (pooledTunnel.ServeHTTP netUp (.ok ()) sampleReq fullSchedule).targetConn = some c ∧
        (pooledTunnel.ServeHTTP netUp (.ok ()) sampleReq fullSchedule).trace.filter
          Event.isHandshake = [handshake sampleReq false c] ∧
        Event.go ∈ (pooledTunnel.ServeHTTP netUp (.ok ()) sampleReq fullSchedule).trace ∧
        (∀ d c2 data, Event.copied d c2 data ∈
          (pooledTunnel.ServeHTTP netUp (.ok ()) sampleReq fullSchedule).trace → c2 = c) ∧
        Event.clientWrite (bytesOf "HTTP/1.1 502 Bad Gateway\r\n\r\n") ∉
          (pooledTunnel.ServeHTTP netUp (.ok ()) sampleReq fullSchedule).trace ∧
        (pooledTunnel.ServeHTTP netUp (.ok ()) sampleReq fullSchedule).main ≠ .panicked :=
  pool_miss_falls_back_to_dial pooledTunnel netUp sampleReq fullSchedule ⟨none, none⟩ []
    "example.com:80" false ⟨fun _ => .error ⟨"no idle connection"⟩⟩ ⟨"no idle connection"⟩
    (.ok 7) rfl rfl rfl rfl rfl

/-! ## The handshake -/

/-- C5: in a session that holds a target connection and is not in cascade mode, the trace
splits around the handler's write of `HTTP/1.0 200 OK\r\n\r\n` to the client socket:
before it nothing is written to the client socket and the socket is not closed, and the
attempt that established the target connection lies before it; after it no acquisition
attempt and no further write by the handler itself occurs, so every chunk relayed from the
target to the client comes after it. -/
theorem direct_mode_signals_ready_first (tunnel : TunnelHandler) (net : Net) (req : Request)
    (sched : List Tick) (c : Conn)
    (hc : (tunnel.ServeHTTP net (.ok ()) req sched).targetConn = some c)
    (hd : (tunnel.ServeHTTP net (.ok ()) req sched).isCascadeProxy = false) :
    ∃ pre post,
      (tunnel.ServeHTTP net (.ok ()) req sched).trace =
        pre ++ .clientWrite (bytesOf "HTTP/1.0 200 OK\r\n\r\n") :: post ∧
      (∀ e ∈ pre, e.onClient = false) ∧
      (∃ e ∈ pre, e.established = true) ∧
      (∀ e ∈ post, e.acquires = false) ∧
      (∀ e ∈ post, e.isHandshake = false) ∧
      (∀ data, Event.copied .targetToClient c data ∈
        (tunnel.ServeHTTP net (.ok ()) req sched).trace →
        Event.copied .targetToClient c data ∈ post) := by
  obtain ⟨evs, evs2, ext, htr, hevs, hevs2, ⟨addr, hest⟩, hall, _, _⟩ :=
    acquired_trace tunnel net req sched c hc
  rw [hd] at htr
  have hpre : ∀ e ∈ evs ++ evs2, e.onClient = false := by
    intro e he
    rcases List.mem_append.1 he with he | he
    · rw [hevs e he]; rfl
    · exact acquire_onClient (hevs2 e he)
  refine ⟨evs ++ evs2, .go :: ext, ?_, hpre, ?_, ?_, ?_, ?_⟩
  · rw [htr]
    simp [handshake]
    rfl
  · have : ∃ e, e ∈ evs2.filter Event.established := by
      rcases hest with h | h <;> rw [h] <;> exact ⟨_, List.mem_cons_self _ _⟩
    obtain ⟨e, he⟩ := this
    exact ⟨e, List.mem_append_right _ (List.mem_filter.1 he).1, (List.mem_filter.1 he).2⟩
  · intro e he
    rcases List.mem_cons.1 he with rfl | he
    · rfl
    · exact relayEvent_acquires (hall e he)
  · intro e he
    rcases List.mem_cons.1 he with rfl | he
    · rfl
    · exact relayEvent_isHandshake (hall e he)
  · intro data hmem
    rw [htr] at hmem
    simp only [List.mem_append, List.mem_cons, List.mem_singleton, List.not_mem_nil,
      or_false] at hmem
    rcases hmem with ((hmem | hmem) | hmem) | hmem
    · have := hpre _ (List.mem_append_left _ hmem)
      cases this
    · have := hpre _ (List.mem_append_right _ hmem)
      cases this
    · rcases hmem with hmem | hmem
      · simp [handshake] at hmem
      · cases hmem
    · exact List.mem_cons_of_mem _ hmem

theorem direct_mode_signals_ready_first_witness :
    ∃ pre post,
      (plainTunnel.ServeHTTP netUp (.ok ()) sampleReq fullSchedule).trace =
        pre ++ .clientWrite (bytesOf "HTTP/1.0 200 OK\r\n\r\n") :: post ∧
      (∀ e ∈ pre, e.onClient = false) ∧
      (∃ e ∈ pre, e.established = true) ∧
      (∀ e ∈ post, e.acquires = false) ∧
      (∀ e ∈ post, e.isHandshake = false) ∧
      (∀ data, Event.copied .targetToClient 7 data ∈
        (plainTunnel.ServeHTTP netUp (.ok ()) sampleReq fullSchedule).trace →
        Event.copied .targetToClient 7 data ∈ post) :=
  direct_mode_signals_ready_first plainTunnel netUp sampleReq fullSchedule 7
    (by decide) (by decide)

/-- C6: in a session that holds a target connection `c`, the handshake writes of the whole
trace (writes of the request to a target and writes by the handler itself to the client) are
a single event, fixed by the cascade flag: in cascade mode it is the write of the request to
`c` and nothing is written by the handler to the client; otherwise it is the write of
`HTTP/1.0 200 OK\r\n\r\n` to the client and the request is written to no target. -/
theorem handshake_is_exclusive (tunnel : TunnelHandler) (net : Net) (req : Request)
    (sched : List Tick) (c : Conn)
    (hc : (tunnel.ServeHTTP net (.ok ()) req sched).targetConn = some c) :
    ((tunnel.ServeHTTP net (.ok ()) req sched).isCascadeProxy = true →
        (tunnel.ServeHTTP net (.ok ()) req sched).trace.filter Event.isHandshake =
          [.reqWrite req c]) ∧
      ((tunnel.ServeHTTP net (.ok ()) req sched).isCascadeProxy = false →
        (tunnel.ServeHTTP net (.ok ()) req sched).trace.filter Event.isHandshake =
          [.clientWrite (bytesOf "HTTP/1.0 200 OK\r\n\r\n")]) := by
  have h := acquired_handshake tunnel net req sched c hc
  constructor
  · intro hcasc
    rw [h, hcasc]; rfl
  · intro hcasc
    rw [h, hcasc]; rfl

theorem handshake_is_exclusive_witness :
    ((cascadeTunnel.ServeHTTP netUp (.ok ()) sampleReq fullSchedule).isCascadeProxy = true →
        (cascadeTunnel.ServeHTTP netUp (.ok ()) sampleReq fullSchedule).trace.filter
          Event.isHandshake = [.reqWrite sampleReq 7]) ∧
      ((cascadeTunnel.ServeHTTP netUp (.ok ()) sampleReq fullSchedule).isCascadeProxy = false →
        (cascadeTunnel.ServeHTTP netUp (.ok ()) sampleReq fullSchedule).trace.filter
          Event.isHandshake = [.clientWrite (bytesOf "HTTP/1.0 200 OK\r\n\r\n")]) :=
  handshake_is_exclusive cascadeTunnel netUp sampleReq fullSchedule 7 (by decide)

/-! ## Disposal of the target connection -/

theorem deferred_disposes (tunnel : TunnelHandler) (c : Conn) :
    (tunnel.deferred c).disposes = true ∧ (tunnel.deferred c).ofMain = true := by
  rcases deferred_cases tunnel c with h | h <;> rw [h] <;> exact ⟨rfl, rfl⟩

theorem disposes_ofMain (e : Event) (h : e.disposes = true) : e.ofMain = true := by
  cases e <;> first | rfl | simp [Event.disposes] at h

/-- C7: when `ServeHTTP` has returned in a session that holds target connection `c`, the
disposals in the whole trace are a single event: `ConnContainer.Put(c)` when a container is
configured (and no `Close` of a target), `c.Close()` when none is (and no `Put`). Wherever
that event stands in the trace, the end of the target-to-client copy stands before it and no
event of the routine that ran `ServeHTTP` stands after it. -/
theorem target_disposed_exactly_once (tunnel : TunnelHandler) (net : Net) (req : Request)
    (sched : List Tick) (c : Conn)
    (hc : (tunnel.ServeHTTP net (.ok ()) req sched).targetConn = some c)
    (hret : (tunnel.ServeHTTP net (.ok ()) req sched).main = .returned) :
    (∀ cc, tunnel.ConnContainer = some cc →
        (tunnel.ServeHTTP net (.ok ()) req sched).trace.filter Event.disposes =
          [.containerPut c]) ∧
      (tunnel.ConnContainer = none →
        (tunnel.ServeHTTP net (.ok ()) req sched).trace.filter Event.disposes =
          [.targetClose c]) ∧
      ∀ pre post, (tunnel.ServeHTTP net (.ok ()) req sched).trace =
          pre ++ tunnel.deferred c :: post →
        (∃ r, Event.copyDone .targetToClient r ∈ pre) ∧ ∀ e ∈ post, e.ofMain = false := by
  have hm := (acquired_tasks tunnel net req sched c hc).1
  rw [hret] at hm
  obtain ⟨b, ds, r, hm⟩ := hm
  have hd := deferred_disposes tunnel c
  have hdisp : (tunnel.ServeHTTP net (.ok ()) req sched).trace.filter Event.disposes =
      [tunnel.deferred c] := by
    rw [filter_of_imp disposes_ofMain, hm]
    rw [List.filter_append, List.filter_cons_of_neg (by simp [Event.disposes]),
      filter_map_copied_nil _ _ _ (fun _ => rfl)]
    rw [List.filter_cons_of_neg (by simp [Event.disposes]),
      List.filter_cons_of_neg (by simp [Event.disposes]),
      List.filter_cons_of_pos hd.1]
    rfl
  refine ⟨?_, ?_, ?_⟩
  · intro cc hcc
    rw [hdisp]; simp [TunnelHandler.deferred, hcc]
  · intro hcc
    rw [hdisp]; simp [TunnelHandler.deferred, hcc]
  · intro pre post hsplit
    have hshape : (tunnel.ServeHTTP net (.ok ()) req sched).trace.filter Event.ofMain =
        (.bufGet tunnel.buffer .targetToClient b ::
          ds.map (.copied .targetToClient c) ++
          [.copyDone .targetToClient r, .bufPut tunnel.buffer .targetToClient b]) ++
          [tunnel.deferred c] := by
      rw [hm]; simp
    have hnot : tunnel.deferred c ∉
        (.bufGet tunnel.buffer .targetToClient b ::
          ds.map (.copied .targetToClient c) ++
          [.copyDone .targetToClient r, .bufPut tunnel.buffer .targetToClient b]) := by
      intro hmem
      rcases deferred_cases tunnel c with h | h <;> rw [h] at hmem <;> simp at hmem
    obtain ⟨h1, h2⟩ := split_at_last hshape hnot hd.2 hsplit
    constructor
    · refine ⟨r, ?_⟩
      have : Event.copyDone .targetToClient r ∈ pre.filter Event.ofMain := by
        rw [h1]; simp
      exact (List.mem_filter.1 this).1
    · intro e he
      cases hx : e.ofMain
      · rfl
      · have : e ∈ post.filter Event.ofMain := List.mem_filter.2 ⟨he, hx⟩
        rw [h2] at this
        cases this

theorem target_disposed_exactly_once_witness :
    (∀ cc, pooledTunnel.ConnContainer = some cc →
        (pooledTunnel.ServeHTTP netUp (.ok ()) sampleReq fullSchedule).trace.filter
          Event.disposes = [.containerPut 7]) ∧
      (pooledTunnel.ConnContainer = none →
        (pooledTunnel.ServeHTTP netUp (.ok ()) sampleReq fullSchedule).trace.filter
          Event.disposes = [.targetClose 7]) ∧
      ∀ pre post, (pooledTunnel.ServeHTTP netUp (.ok ()) sampleReq fullSchedule).trace =
          pre ++ pooledTunnel.deferred 7 :: post →
        (∃ r, Event.copyDone .targetToClient r ∈ pre) ∧ ∀ e ∈ post, e.ofMain = false :=
  target_disposed_exactly_once pooledTunnel netUp sampleReq fullSchedule 7
    (by decide) (by decide)

/-! ## Closing of the client socket -/

/-- C8, refuted as stated: `ServeHTTP` has returned after its relay of the target-to-client
direction completed, and the client socket has not been closed: the only close on that path
is issued by the other task, which has not yet run. -/
theorem returned_with_client_open :
    (plainTunnel.ServeHTTP netUp (.ok ()) sampleReq mainOnlySchedule).main = .returned ∧
      (plainTunnel.ServeHTTP netUp (.ok ()) sampleReq mainOnlySchedule).trace.count
        .clientClose = 0 := by
  decide

/-- C8, amended: the handler never closes the client socket twice. When `ServeHTTP` has
returned without a target connection (the proxy function failed or acquisition failed) it
has closed the socket exactly once. In a session that holds a target connection the socket
has been closed exactly once when the client-to-target task has finished, and not at all
before that, whether or not `ServeHTTP` has returned. -/
theorem client_closed_at_most_once (tunnel : TunnelHandler) (net : Net) (req : Request)
    (sched : List Tick) :
    (tunnel.ServeHTTP net (.ok ()) req sched).trace.count .clientClose ≤ 1 ∧
      ((tunnel.ServeHTTP net (.ok ()) req sched).targetConn = none →
        (tunnel.ServeHTTP net (.ok ()) req sched).main = .returned →
        (tunnel.ServeHTTP net (.ok ()) req sched).trace.count .clientClose = 1) ∧
      (∀ c, (tunnel.ServeHTTP net (.ok ()) req sched).targetConn = some c →
        ((tunnel.ServeHTTP net (.ok ()) req sched).gor = .done →
          (tunnel.ServeHTTP net (.ok ()) req sched).trace.count .clientClose = 1) ∧
        ((tunnel.ServeHTTP net (.ok ()) req sched).gor ≠ .done →
          (tunnel.ServeHTTP net (.ok ()) req sched).trace.count .clientClose = 0)) := by
  have hsome : ∀ c, (tunnel.ServeHTTP net (.ok ()) req sched).targetConn = some c →
      ((tunnel.ServeHTTP net (.ok ()) req sched).gor = .done →
        (tunnel.ServeHTTP net (.ok ()) req sched).trace.count .clientClose = 1) ∧
      ((tunnel.ServeHTTP net (.ok ()) req sched).gor ≠ .done →
        (tunnel.ServeHTTP net (.ok ()) req sched).trace.count .clientClose = 0) := by
    intro c hc
    have hg := (acquired_tasks tunnel net req sched c hc).2
    have hcount : (tunnel.ServeHTTP net (.ok ()) req sched).trace.count .clientClose =
        ((tunnel.ServeHTTP net (.ok ()) req sched).trace.filter Event.ofGoroutine).count
          .clientClose := by
      rw [List.count_filter]; rfl
    have hmap : ∀ ds : List Bytes,
        (ds.map (Event.copied .clientToTarget c)).count .clientClose = 0 := by
      intro ds
      rw [List.count_eq_zero]
      intro hmem
      obtain ⟨_, _, h⟩ := List.mem_map.1 hmem
      cases h
    rw [hcount]
    cases hpc : (tunnel.ServeHTTP net (.ok ()) req sched).gor with
    | idle => rw [hpc] at hg; exact absurd hg (by simp [GoShape])
    | get =>
      rw [hpc] at hg
      simp only [GoShape] at hg
      rw [hg]; simp
    | copying b =>
      rw [hpc] at hg
      obtain ⟨ds, hg⟩ := hg
      rw [hg]
      simp [List.count_cons, hmap]
    | put b =>
      rw [hpc] at hg
      obtain ⟨ds, r, hg⟩ := hg
      rw [hg]
      simp [List.count_cons, List.count_append, hmap]
    | close =>
      rw [hpc] at hg
      obtain ⟨b, ds, r, hg⟩ := hg
      rw [hg]
      simp [List.count_cons, List.count_append, hmap]
    | done =>
      rw [hpc] at hg
      obtain ⟨b, ds, r, hg⟩ := hg
      rw [hg]
      simp [List.count_cons, List.count_append, hmap]
  have hnone : (tunnel.ServeHTTP net (.ok ()) req sched).targetConn = none →
      (tunnel.ServeHTTP net (.ok ()) req sched).trace.count .clientClose ≤ 1 ∧
      ((tunnel.ServeHTTP net (.ok ()) req sched).main = .returned →
        (tunnel.ServeHTTP net (.ok ()) req sched).trace.count .clientClose = 1) := by
    intro hn
    have hcnt : ∀ evs : List Event, (∀ e ∈ evs, e = .proxy req ∨ e.acquires = true) →
        (evs ++ ConnError).count .clientClose = 1 := by
      intro evs hevs
      have : evs.count .clientClose = 0 := by
        rw [List.count_eq_zero]
        intro hmem
        rcases hevs _ hmem with h | h
        · cases h
        · cases h
      rw [List.count_append, this]
      rfl
    cases hctx : tunnel.Ctx with
    | none =>
      rw [ServeHTTP_of_nil_ctx _ _ _ _ hctx]
      exact ⟨by simp, fun h => by cases h⟩
    | some ctx =>
      have hres := resolve_events ctx req
      rcases hr : resolve ctx req with ⟨evs, err | ⟨addr, casc⟩⟩
      · rw [hr] at hres
        rw [ServeHTTP_unresolved _ _ _ _ _ _ _ hctx hr]
        have := hcnt evs fun e he => Or.inl (hres e he)
        exact ⟨by simp only [this]; exact Nat.le_refl 1, fun _ => this⟩
      · rw [hr] at hres
        rcases ServeHTTP_resolved tunnel net req sched ctx evs addr casc hctx hr with
          ⟨err, _, hs⟩ | ⟨c, _, _, _, ht, _⟩
        · rw [hs]
          have := hcnt (evs ++ (tunnel.acquire net addr).1) fun e he => by
            rcases List.mem_append.1 he with he | he
            · exact Or.inl (hres e he)
            · right
              rcases acquire_events tunnel net addr ctx hctx e he with ⟨r, rfl⟩ | ⟨r, rfl⟩ <;>
                rfl
          exact ⟨by simp only [this]; exact Nat.le_refl 1, fun _ => this⟩
        · rw [ht] at hn; cases hn
  refine ⟨?_, fun hn => (hnone hn).2, hsome⟩
  cases ht : (tunnel.ServeHTTP net (.ok ()) req sched).targetConn with
  | none => exact (hnone ht).1
  | some c =>
    by_cases hd : (tunnel.ServeHTTP net (.ok ()) req sched).gor = .done
    · rw [(hsome c ht).1 hd]
    · rw [(hsome c ht).2 hd]; exact Nat.zero_le 1

theorem client_closed_at_most_once_witness :
    (plainTunnel.ServeHTTP netUp (.ok ()) sampleReq fullSchedule).trace.count .clientClose ≤ 1 ∧
      ((plainTunnel.ServeHTTP netUp (.ok ()) sampleReq fullSchedule).targetConn = none →
        (plainTunnel.ServeHTTP netUp (.ok ()) sampleReq fullSchedule).main = .returned →
        (plainTunnel.ServeHTTP netUp (.ok ()) sampleReq fullSchedule).trace.count
          .clientClose = 1) ∧
      (∀ c, (plainTunnel.ServeHTTP netUp (.ok ()) sampleReq fullSchedule).targetConn = some c →
        ((plainTunnel.ServeHTTP netUp (.ok ()) sampleReq fullSchedule).gor = .done →
          (plainTunnel.ServeHTTP netUp (.ok ()) sampleReq fullSchedule).trace.count
            .clientClose = 1) ∧
        ((plainTunnel.ServeHTTP netUp (.ok ()) sampleReq fullSchedule).gor ≠ .done →
          (plainTunnel.ServeHTTP netUp (.ok ()) sampleReq fullSchedule).trace.count
            .clientClose = 0)) :=
  client_closed_at_most_once plainTunnel netUp sampleReq fullSchedule

/-! ## Number of target connections -/

/-- C9, refuted as stated: in a session whose proxy function fails no attempt to obtain a
target connection is even made, so zero connections are established, not one. -/
theorem no_target_on_proxy_failure :
    ((brokenProxyTunnel.ServeHTTP netUp (.ok ()) sampleReq fullSchedule).trace.filter
        Event.established).length = 0 ∧
      (brokenProxyTunnel.ServeHTTP netUp (.ok ()) sampleReq fullSchedule).main = .returned := by
  decide

/-- C9, amended: a session never establishes two target connections. A session that holds a
target connection established exactly one, by a successful `Get` or a successful dial, and
that one is the connection it holds; a session that holds none (it ended on a failing proxy
function or a failed acquisition) established none. -/
theorem at_most_one_target (tunnel : TunnelHandler) (net : Net) (req : Request)
    (sched : List Tick) :
    (∀ c, (tunnel.ServeHTTP net (.ok ()) req sched).targetConn = some c →
      ∃ addr,
        (tunnel.ServeHTTP net (.ok ()) req sched).trace.filter Event.established =
          [.containerGet addr (some c)] ∨
        (tunnel.ServeHTTP net (.ok ()) req sched).trace.filter Event.established =
          [.connectDial "tcp" addr (some c)]) ∧
      ((tunnel.ServeHTTP net (.ok ()) req sched).targetConn = none →
        (tunnel.ServeHTTP net (.ok ()) req sched).trace.filter Event.established = []) := by
  constructor
  · intro c hc
    obtain ⟨evs, evs2, ext, htr, hevs, _, ⟨addr, hest⟩, hall, _, _⟩ :=
      acquired_trace tunnel net req sched c hc
    have h1 : evs.filter Event.established = [] :=
      filter_eq_nil_of_forall fun e he => by rw [hevs e he]; rfl
    have h2 : ext.filter Event.established = [] :=
      filter_eq_nil_of_forall fun e he => by
        cases hx : e.established
        · rfl
        · have := relayEvent_acquires (hall e he)
          rw [established_acquires e hx] at this
          cases this
    have h3 : [handshake req (tunnel.ServeHTTP net (.ok ()) req sched).isCascadeProxy c,
        Event.go].filter Event.established = [] :=
      filter_eq_nil_of_forall fun e he => by
        simp only [List.mem_cons, List.mem_singleton, List.not_mem_nil, or_false] at he
        rcases he with rfl | rfl
        · rcases handshake_cases req (tunnel.ServeHTTP net (.ok ()) req sched).isCascadeProxy c
            with ⟨_, h⟩ | ⟨_, h⟩ <;> rw [h] <;> rfl
        · rfl
    refine ⟨addr, ?_⟩
    rw [htr]
    simp only [List.filter_append, h1, h2, h3, List.nil_append, List.append_nil]
    exact hest
  · intro hn
    cases hctx : tunnel.Ctx with
    | none => rw [ServeHTTP_of_nil_ctx _ _ _ _ hctx]; rfl
    | some ctx =>
      rcases hr : resolve ctx req with ⟨evs, err | ⟨addr, casc⟩⟩
      · rw [ServeHTTP_unresolved _ _ _ _ _ _ _ hctx hr]
        have hevs := resolve_events ctx req
        rw [hr] at hevs
        have h1 : evs.filter Event.established = [] :=
          filter_eq_nil_of_forall fun e he => by rw [hevs e he]; rfl
        simp only [List.filter_append, h1]
        rfl
      · rw [filter_of_imp established_acquires,
          ServeHTTP_acquires tunnel net req sched ctx evs addr casc hctx hr]
        rcases ServeHTTP_resolved tunnel net req sched ctx evs addr casc hctx hr with
          ⟨err, he, _⟩ | ⟨c, _, _, _, ht, _⟩
        · exact (acquire_established tunnel net addr ctx hctx).2 err he
        · rw [ht] at hn; cases hn

theorem at_most_one_target_witness :
    (∀ c, (pooledHitTunnel.ServeHTTP netUp (.ok ()) sampleReq fullSchedule).targetConn = some c →
      ∃ addr,
        (pooledHitTunnel.ServeHTTP netUp (.ok ()) sampleReq fullSchedule).trace.filter
          Event.established = [.containerGet addr (some c)] ∨
        (pooledHitTunnel.ServeHTTP netUp (.ok ()) sampleReq fullSchedule).trace.filter
          Event.established = [.connectDial "tcp" addr (some c)]) ∧
      ((pooledHitTunnel.ServeHTTP netUp (.ok ()) sampleReq fullSchedule).targetConn = none →
        (pooledHitTunnel.ServeHTTP netUp (.ok ()) sampleReq fullSchedule).trace.filter
          Event.established = []) ∧
      (pooledHitTunnel.ServeHTTP netUp (.ok ()) sampleReq fullSchedule).targetConn = some 3 :=
  ⟨(at_most_one_target pooledHitTunnel netUp sampleReq fullSchedule).1,
    (at_most_one_target pooledHitTunnel netUp sampleReq fullSchedule).2, by decide⟩

/-! ## Buffers of the relay -/

theorem ofCopy_clientToTarget (e : Event) (h : e.ofCopy .clientToTarget = true) :
    e.ofGoroutine = true := by
  cases e with
  | bufGet p d b => cases d <;> first | rfl | simp [Event.ofCopy] at h
  | copied d c data => cases d <;> first | rfl | simp [Event.ofCopy] at h
  | copyDone d r => cases d <;> first | rfl | simp [Event.ofCopy] at h
  | bufPut p d b => cases d <;> first | rfl | simp [Event.ofCopy] at h
  | _ => simp [Event.ofCopy] at h

theorem ofCopy_targetToClient (e : Event) (h : e.ofCopy .targetToClient = true) :
    e.ofMain = true := by
  cases e with
  | bufGet p d b => cases d <;> first | rfl | simp [Event.ofCopy] at h
  | copied d c data => cases d <;> first | rfl | simp [Event.ofCopy] at h
  | copyDone d r => cases d <;> first | rfl | simp [Event.ofCopy] at h
  | bufPut p d b => cases d <;> first | rfl | simp [Event.ofCopy] at h
  | _ => simp [Event.ofCopy] at h

/-- Once a task is past its `Put`, the events of its copy in the whole trace are one `Get`,
the chunks, the end of the copy and one `Put` of the same buffer on the same pool; and a close
of the client socket always has the `Put` of the client-to-target copy before it. -/
theorem buffers_past_put (tunnel : TunnelHandler) (net : Net) (req : Request)
    (sched : List Tick) (c : Conn)
    (hc : (tunnel.ServeHTTP net (.ok ()) req sched).targetConn = some c) :
    (((tunnel.ServeHTTP net (.ok ()) req sched).gor = .close ∨
        (tunnel.ServeHTTP net (.ok ()) req sched).gor = .done) →
      ∃ (b : Buf) (ds : List Bytes) (r : Option Error),
        (tunnel.ServeHTTP net (.ok ()) req sched).trace.filter (Event.ofCopy .clientToTarget) =
          .bufGet tunnel.buffer .clientToTarget b :: ds.map (.copied .clientToTarget c) ++
            [.copyDone .clientToTarget r, .bufPut tunnel.buffer .clientToTarget b]) ∧
      (((tunnel.ServeHTTP net (.ok ()) req sched).main = .deferred ∨
        (tunnel.ServeHTTP net (.ok ()) req sched).main = .returned) →
      ∃ (b : Buf) (ds : List Bytes) (r : Option Error),
        (tunnel.ServeHTTP net (.ok ()) req sched).trace.filter (Event.ofCopy .targetToClient) =
          .bufGet tunnel.buffer .targetToClient b :: ds.map (.copied .targetToClient c) ++
            [.copyDone .targetToClient r, .bufPut tunnel.buffer .targetToClient b]) ∧
      ∀ pre post, (tunnel.ServeHTTP net (.ok ()) req sched).trace =
          pre ++ .clientClose :: post →
        ∃ b, Event.bufPut tunnel.buffer .clientToTarget b ∈ pre := by
  obtain ⟨hm, hg⟩ := acquired_tasks tunnel net req sched c hc
  have hd := deferred_cases tunnel c
  refine ⟨?_, ?_, ?_⟩
  · intro hpc
    rw [filter_of_imp ofCopy_clientToTarget]
    rcases hpc with hpc | hpc <;> rw [hpc] at hg <;> obtain ⟨b, ds, r, hg⟩ := hg <;>
      refine ⟨b, ds, r, ?_⟩ <;> rw [hg] <;>
      simp only [List.filter_append, List.filter_cons, List.filter_nil,
        filter_map_copied_self (Event.ofCopy .clientToTarget) .clientToTarget c ds
          (fun _ => rfl)] <;>
      simp [Event.ofCopy]
  · intro hpc
    rw [filter_of_imp ofCopy_targetToClient]
    rcases hpc with hpc | hpc <;> rw [hpc] at hm <;> obtain ⟨b, ds, r, hm⟩ := hm <;>
      refine ⟨b, ds, r, ?_⟩ <;> rw [hm] <;>
      simp only [List.filter_append, List.filter_cons, List.filter_nil,
        filter_map_copied_self (Event.ofCopy .targetToClient) .targetToClient c ds
          (fun _ => rfl)]
    · simp [Event.ofCopy]
    · rcases hd with hd | hd <;> rw [hd] <;> simp [Event.ofCopy]
  · intro pre post hsplit
    have hmem : Event.clientClose ∈
        (tunnel.ServeHTTP net (.ok ()) req sched).trace.filter Event.ofGoroutine := by
      rw [hsplit]
      exact List.mem_filter.2 ⟨by simp, rfl⟩
    have hnm : ∀ ds : List Bytes,
        Event.clientClose ∉ ds.map (Event.copied .clientToTarget c) := by
      intro ds hmem
      obtain ⟨_, _, h⟩ := List.mem_map.1 hmem
      cases h
    cases hpc : (tunnel.ServeHTTP net (.ok ()) req sched).gor with
    | idle => rw [hpc] at hg; exact absurd hg (by simp [GoShape])
    | get =>
      rw [hpc] at hg
      simp only [GoShape] at hg
      rw [hg] at hmem; cases hmem
    | copying b =>
      rw [hpc] at hg
      obtain ⟨ds, hg⟩ := hg
      rw [hg] at hmem
      simp [hnm] at hmem
    | put b =>
      rw [hpc] at hg
      obtain ⟨ds, r, hg⟩ := hg
      rw [hg] at hmem
      simp [hnm] at hmem
    | close =>
      rw [hpc] at hg
      obtain ⟨b, ds, r, hg⟩ := hg
      rw [hg] at hmem
      simp [hnm] at hmem
    | done =>
      rw [hpc] at hg
      obtain ⟨b, ds, r, hg⟩ := hg
      have hshape : (tunnel.ServeHTTP net (.ok ()) req sched).trace.filter Event.ofGoroutine =
          (.bufGet tunnel.buffer .clientToTarget b ::
            ds.map (.copied .clientToTarget c) ++
            [.copyDone .clientToTarget r, .bufPut tunnel.buffer .clientToTarget b]) ++
            [.clientClose] := by
        rw [hg]; simp
      have hnot : Event.clientClose ∉
          (.bufGet tunnel.buffer .clientToTarget b ::
            ds.map (.copied .clientToTarget c) ++
            [.copyDone .clientToTarget r, .bufPut tunnel.buffer .clientToTarget b]) := by
        simp [hnm]
      obtain ⟨h1, _⟩ := split_at_last hshape hnot rfl hsplit
      refine ⟨b, ?_⟩
      have : Event.bufPut tunnel.buffer .clientToTarget b ∈ pre.filter Event.ofGoroutine := by
        rw [h1]; simp
      exact (List.mem_filter.1 this).1

theorem ServeHTTP_snoc (tunnel : TunnelHandler) (net : Net) (hijack : Except Error Unit)
    (req : Request) (sched : List Tick) (k : Tick) :
    tunnel.ServeHTTP net hijack req (sched ++ [k]) =
      tunnel.step (tunnel.ServeHTTP net hijack req sched) k := by
  simp [TunnelHandler.ServeHTTP, List.foldl_append]

theorem step_targetConn (tunnel : TunnelHandler) (s : Session) (k : Tick) :
    (tunnel.step s k).targetConn = s.targetConn := by
  obtain ⟨tr, tc, casc, m, g⟩ := s
  obtain ⟨task, buf, res⟩ := k
  cases tc with
  | none => rfl
  | some c => cases task <;> cases m <;> cases g <;> cases res <;> rfl

/-- Four statements of the client-to-target task, the copy meeting end of stream or an error,
bring it to its end from wherever it stands. -/
theorem goroutine_runs_to_end (tunnel : TunnelHandler) (s : Session) (k : Tick) (c : Conn)
    (hc : s.targetConn = some c) (hk : k.task = .goroutine) (hres : ∀ data, k.res ≠ .chunk data)
    (hidle : s.gor ≠ .idle) :
    (tunnel.step (tunnel.step (tunnel.step (tunnel.step s k) k) k) k).gor = .done := by
  obtain ⟨tr, tc, casc, m, g⟩ := s
  obtain ⟨task, buf, res⟩ := k
  simp only at hc hk hidle hres
  subst hc hk
  cases res with
  | chunk data => exact absurd rfl (hres data)
  | eof => cases g <;> first | rfl | exact absurd rfl hidle
  | err e => cases g <;> first | rfl | exact absurd rfl hidle

/-- Four statements of the routine that runs `ServeHTTP`, the copy meeting end of stream or
an error, make it return from wherever it stands in the relay. -/
theorem main_runs_to_end (tunnel : TunnelHandler) (s : Session) (k : Tick) (c : Conn)
    (hc : s.targetConn = some c) (hk : k.task = .main) (hres : ∀ data, k.res ≠ .chunk data)
    (hp : s.main ≠ .panicked) :
    (tunnel.step (tunnel.step (tunnel.step (tunnel.step s k) k) k) k).main = .returned := by
  obtain ⟨tr, tc, casc, m, g⟩ := s
  obtain ⟨task, buf, res⟩ := k
  simp only at hc hk hp hres
  subst hc hk
  cases res with
  | chunk data => exact absurd rfl (hres data)
  | eof => cases m <;> first | rfl | exact absurd rfl hp
  | err e => cases m <;> first | rfl | exact absurd rfl hp

theorem ServeHTTP_snoc4 (tunnel : TunnelHandler) (net : Net) (hijack : Except Error Unit)
    (req : Request) (sched : List Tick) (k : Tick) :
    tunnel.ServeHTTP net hijack req (sched ++ [k, k, k, k]) =
      tunnel.step (tunnel.step (tunnel.step
        (tunnel.step (tunnel.ServeHTTP net hijack req sched) k) k) k) k := by
  simp [TunnelHandler.ServeHTTP, List.foldl_append]

theorem ServeHTTP_snoc4_targetConn (tunnel : TunnelHandler) (net : Net)
    (hijack : Except Error Unit) (req : Request) (sched : List Tick) (k : Tick) :
    (tunnel.ServeHTTP net hijack req (sched ++ [k, k, k, k])).targetConn =
      (tunnel.ServeHTTP net hijack req sched).targetConn := by
  rw [ServeHTTP_snoc4]
  simp only [step_targetConn]

/-- C10: in a session that holds target connection `c`, at any point of any schedule:
the pool is `tunnel.BufferPool` when set and the default pool otherwise; the events of each
task in the trace are a front part of its program (`Get`, chunks, end of copy, `Put` of the
borrowed buffer, then `Close` of the client socket or the deferred disposal); each task's next
statement is the next one of that program, in particular a copy that meets end of stream or
an error ends, and a task whose copy has ended returns the borrowed buffer to the same pool
as its very next statement, before the client socket is closed; and four further statements
of a task whose copy meets end of stream or an error bring it to its end, with exactly one
`Get` and one `Put` of the same buffer in its trace. -/
theorem relay_buffers_returned_once (tunnel : TunnelHandler) (net : Net) (req : Request)
    (sched : List Tick) (c : Conn)
    (hc : (tunnel.ServeHTTP net (.ok ()) req sched).targetConn = some c) :
    ((∀ p, tunnel.BufferPool = some p → tunnel.buffer = p) ∧
        (tunnel.BufferPool = none → tunnel.buffer = DefaultBuffer)) ∧
      (MainShape tunnel c (tunnel.ServeHTTP net (.ok ()) req sched).main
          ((tunnel.ServeHTTP net (.ok ()) req sched).trace.filter Event.ofMain) ∧
        GoShape tunnel c (tunnel.ServeHTTP net (.ok ()) req sched).gor
          ((tunnel.ServeHTTP net (.ok ()) req sched).trace.filter Event.ofGoroutine)) ∧
      (∀ k : Tick, k.task = .goroutine →
        ((tunnel.ServeHTTP net (.ok ()) req sched).gor = .get →
          (tunnel.ServeHTTP net (.ok ()) req (sched ++ [k])).trace =
              (tunnel.ServeHTTP net (.ok ()) req sched).trace ++
                [.bufGet tunnel.buffer .clientToTarget k.buf] ∧
            (tunnel.ServeHTTP net (.ok ()) req (sched ++ [k])).gor = .copying k.buf) ∧
        (∀ b data, (tunnel.ServeHTTP net (.ok ()) req sched).gor = .copying b →
          k.res = .chunk data →
          (tunnel.ServeHTTP net (.ok ()) req (sched ++ [k])).trace =
              (tunnel.ServeHTTP net (.ok ()) req sched).trace ++
                [.copied .clientToTarget c data] ∧
            (tunnel.ServeHTTP net (.ok ()) req (sched ++ [k])).gor = .copying b) ∧
        (∀ b, (tunnel.ServeHTTP net (.ok ()) req sched).gor = .copying b →
          (∀ data, k.res ≠ .chunk data) →
          (tunnel.ServeHTTP net (.ok ()) req (sched ++ [k])).trace =
              (tunnel.ServeHTTP net (.ok ()) req sched).trace ++
                [.copyDone .clientToTarget k.res.error?] ∧
            (tunnel.ServeHTTP net (.ok ()) req (sched ++ [k])).gor = .put b) ∧
        (∀ b, (tunnel.ServeHTTP net (.ok ()) req sched).gor = .put b →
          (tunnel.ServeHTTP net (.ok ()) req (sched ++ [k])).trace =
              (tunnel.ServeHTTP net (.ok ()) req sched).trace ++
                [.bufPut tunnel.buffer .clientToTarget b] ∧
            (tunnel.ServeHTTP net (.ok ()) req (sched ++ [k])).gor = .close) ∧
        ((tunnel.ServeHTTP net (.ok ()) req sched).gor = .close →
          (tunnel.ServeHTTP net (.ok ()) req (sched ++ [k])).trace =
              (tunnel.ServeHTTP net (.ok ()) req sched).trace ++ [.clientClose] ∧
            (tunnel.ServeHTTP net (.ok ()) req (sched ++ [k])).gor = .done)) ∧
      (∀ k : Tick, k.task = .main →
        ((tunnel.ServeHTTP net (.ok ()) req sched).main = .copyGet →
          (tunnel.ServeHTTP net (.ok ()) req (sched ++ [k])).trace =
              (tunnel.ServeHTTP net (.ok ()) req sched).trace ++
                [.bufGet tunnel.buffer .targetToClient k.buf] ∧
            (tunnel.ServeHTTP net (.ok ()) req (sched ++ [k])).main = .copying k.buf) ∧
        (∀ b data, (tunnel.ServeHTTP net (.ok ()) req sched).main = .copying b →
          k.res = .chunk data →
          (tunnel.ServeHTTP net (.ok ()) req (sched ++ [k])).trace =
              (tunnel.ServeHTTP net (.ok ()) req sched).trace ++
                [.copied .targetToClient c data] ∧
            (tunnel.ServeHTTP net (.ok ()) req (sched ++ [k])).main = .copying b) ∧
        (∀ b, (tunnel.ServeHTTP net (.ok ()) req sched).main = .copying b →
          (∀ data, k.res ≠ .chunk data) →
          (tunnel.ServeHTTP net (.ok ()) req (sched ++ [k])).trace =
              (tunnel.ServeHTTP net (.ok ()) req sched).trace ++
                [.copyDone .targetToClient k.res.error?] ∧
            (tunnel.ServeHTTP net (.ok ()) req (sched ++ [k])).main = .copyPut b) ∧
        (∀ b, (tunnel.ServeHTTP net (.ok ()) req sched).main = .copyPut b →
          (tunnel.ServeHTTP net (.ok ()) req (sched ++ [k])).trace =
              (tunnel.ServeHTTP net (.ok ()) req sched).trace ++
                [.bufPut tunnel.buffer .targetToClient b] ∧
            (tunnel.ServeHTTP net (.ok ()) req (sched ++ [k])).main = .deferred)) ∧
      (∀ k : Tick, k.task = .goroutine → (∀ data, k.res ≠ .chunk data) →
        (tunnel.ServeHTTP net (.ok ()) req (sched ++ [k, k, k, k])).gor = .done ∧
        ∃ (b : Buf) (ds : List Bytes) (r : Option Error),
          (tunnel.ServeHTTP net (.ok ()) req (sched ++ [k, k, k, k])).trace.filter
              Event.ofGoroutine =
            .bufGet tunnel.buffer .clientToTarget b :: ds.map (.copied .clientToTarget c) ++
              [.copyDone .clientToTarget r, .bufPut tunnel.buffer .clientToTarget b,
                .clientClose]) ∧
      (∀ k : Tick, k.task = .main → (∀ data, k.res ≠ .chunk data) →
        (tunnel.ServeHTTP net (.ok ()) req (sched ++ [k, k, k, k])).main = .returned ∧
        ∃ (b : Buf) (ds : List Bytes) (r : Option Error),
          (tunnel.ServeHTTP net (.ok ()) req (sched ++ [k, k, k, k])).trace.filter
              (Event.ofCopy .targetToClient) =
            .bufGet tunnel.buffer .targetToClient b :: ds.map (.copied .targetToClient c) ++
              [.copyDone .targetToClient r, .bufPut tunnel.buffer .targetToClient b]) ∧
      (((tunnel.ServeHTTP net (.ok ()) req sched).gor = .close ∨
          (tunnel.ServeHTTP net (.ok ()) req sched).gor = .done) →
        ∃ (b : Buf) (ds : List Bytes) (r : Option Error),
          (tunnel.ServeHTTP net (.ok ()) req sched).trace.filter
              (Event.ofCopy .clientToTarget) =
            .bufGet tunnel.buffer .clientToTarget b :: ds.map (.copied .clientToTarget c) ++
              [.copyDone .clientToTarget r, .bufPut tunnel.buffer .clientToTarget b]) ∧
      (((tunnel.ServeHTTP net (.ok ()) req sched).main = .deferred ∨
          (tunnel.ServeHTTP net (.ok ()) req sched).main = .returned) →
        ∃ (b : Buf) (ds : List Bytes) (r : Option Error),
          (tunnel.ServeHTTP net (.ok ()) req sched).trace.filter
              (Event.ofCopy .targetToClient) =
            .bufGet tunnel.buffer .targetToClient b :: ds.map (.copied .targetToClient c) ++
              [.copyDone .targetToClient r, .bufPut tunnel.buffer .targetToClient b]) ∧
      ∀ pre post, (tunnel.ServeHTTP net (.ok ()) req sched).trace =
          pre ++ .clientClose :: post →
        ∃ b, Event.bufPut tunnel.buffer .clientToTarget b ∈ pre := by
  have htasks := acquired_tasks tunnel net req sched c hc
  have hold := buffers_past_put tunnel net req sched c hc
  have hnonchunk : ∀ k : Tick, (∀ data, k.res ≠ .chunk data) →
      k.res = .eof ∨ ∃ e, k.res = .err e := by
    intro k hk
    cases hr : k.res with
    | chunk data => exact absurd hr (hk data)
    | eof => exact Or.inl rfl
    | err e => exact Or.inr ⟨e, rfl⟩
  refine ⟨⟨?_, ?_⟩, htasks, ?_, ?_, ?_, ?_, hold.1, hold.2.1, hold.2.2⟩
  · intro p hp
    simp [TunnelHandler.buffer, hp]
  · intro hp
    simp [TunnelHandler.buffer, hp]
  · intro k hk
    refine ⟨?_, ?_, ?_, ?_, ?_⟩
    · intro hpc
      rw [ServeHTTP_snoc]
      simp [TunnelHandler.step, hc, hk, hpc]
    · intro b data hpc hres
      rw [ServeHTTP_snoc]
      simp [TunnelHandler.step, hc, hk, hpc, hres]
    · intro b hpc hres
      rw [ServeHTTP_snoc]
      rcases hnonchunk k hres with h | ⟨e, h⟩ <;>
        simp [TunnelHandler.step, hc, hk, hpc, h, CopyResult.error?]
    · intro b hpc
      rw [ServeHTTP_snoc]
      simp [TunnelHandler.step, hc, hk, hpc]
    · intro hpc
      rw [ServeHTTP_snoc]
      simp [TunnelHandler.step, hc, hk, hpc]
  · intro k hk
    refine ⟨?_, ?_, ?_, ?_⟩
    · intro hpc
      rw [ServeHTTP_snoc]
      simp [TunnelHandler.step, hc, hk, hpc]
    · intro b data hpc hres
      rw [ServeHTTP_snoc]
      simp [TunnelHandler.step, hc, hk, hpc, hres]
    · intro b hpc hres
      rw [ServeHTTP_snoc]
      rcases hnonchunk k hres with h | ⟨e, h⟩ <;>
        simp [TunnelHandler.step, hc, hk, hpc, h, CopyResult.error?]
    · intro b hpc
      rw [ServeHTTP_snoc]
      simp [TunnelHandler.step, hc, hk, hpc]
  · intro k hk hres
    have hidle : (tunnel.ServeHTTP net (.ok ()) req sched).gor ≠ .idle := by
      intro h
      have := htasks.2
      rw [h] at this
      exact this
    have hdone : (tunnel.ServeHTTP net (.ok ()) req (sched ++ [k, k, k, k])).gor = .done := by
      rw [ServeHTTP_snoc4]
      exact goroutine_runs_to_end tunnel _ k c hc hk hres hidle
    have hc4 : (tunnel.ServeHTTP net (.ok ()) req (sched ++ [k, k, k, k])).targetConn =
        some c := by
      rw [ServeHTTP_snoc4_targetConn]; exact hc
    have hg := (acquired_tasks tunnel net req (sched ++ [k, k, k, k]) c hc4).2
    rw [hdone] at hg
    exact ⟨hdone, hg⟩
  · intro k hk hres
    have hp : (tunnel.ServeHTTP net (.ok ()) req sched).main ≠ .panicked := by
      intro h
      have := htasks.1
      rw [h] at this
      exact this
    have hret : (tunnel.ServeHTTP net (.ok ()) req (sched ++ [k, k, k, k])).main =
        .returned := by
      rw [ServeHTTP_snoc4]
      exact main_runs_to_end tunnel _ k c hc hk hres hp
    have hc4 : (tunnel.ServeHTTP net (.ok ()) req (sched ++ [k, k, k, k])).targetConn =
        some c := by
      rw [ServeHTTP_snoc4_targetConn]; exact hc
    exact ⟨hret, (buffers_past_put tunnel net req (sched ++ [k, k, k, k]) c hc4).2.1
      (Or.inr hret)⟩

theorem relay_buffers_returned_once_witness :
    ((pooledTunnel.ServeHTTP netUp (.ok ()) sampleReq (midCopySchedule ++ [goErr])).trace =
          (pooledTunnel.ServeHTTP netUp (.ok ()) sampleReq midCopySchedule).trace ++
            [.copyDone .clientToTarget (some ⟨"connection reset by peer"⟩)] ∧
        (pooledTunnel.ServeHTTP netUp (.ok ()) sampleReq (midCopySchedule ++ [goErr])).gor = .put 12) ∧
      ((pooledTunnel.ServeHTTP netUp (.ok ()) sampleReq ((midCopySchedule ++ [goErr]) ++ [goErr])).trace =
          (pooledTunnel.ServeHTTP netUp (.ok ()) sampleReq (midCopySchedule ++ [goErr])).trace ++
            [.bufPut ⟨1⟩ .clientToTarget 12] ∧
        (pooledTunnel.ServeHTTP netUp (.ok ()) sampleReq ((midCopySchedule ++ [goErr]) ++ [goErr])).gor = .close) ∧
      ((pooledTunnel.ServeHTTP netUp (.ok ()) sampleReq (midCopySchedule ++ [mainEof])).trace =
          (pooledTunnel.ServeHTTP netUp (.ok ()) sampleReq midCopySchedule).trace ++ [.copyDone .targetToClient none] ∧
        (pooledTunnel.ServeHTTP netUp (.ok ()) sampleReq (midCopySchedule ++ [mainEof])).main = .copyPut 11) ∧
      ((pooledTunnel.ServeHTTP netUp (.ok ()) sampleReq ((midCopySchedule ++ [mainEof]) ++ [mainEof])).trace =
          (pooledTunnel.ServeHTTP netUp (.ok ()) sampleReq (midCopySchedule ++ [mainEof])).trace ++
            [.bufPut ⟨1⟩ .targetToClient 11] ∧
        (pooledTunnel.ServeHTTP netUp (.ok ()) sampleReq ((midCopySchedule ++ [mainEof]) ++ [mainEof])).main = .deferred) ∧
      (pooledTunnel.ServeHTTP netUp (.ok ()) sampleReq (midCopySchedule ++ [goErr, goErr, goErr, goErr])).gor = .done ∧
      (pooledTunnel.ServeHTTP netUp (.ok ()) sampleReq (midCopySchedule ++ [mainEof, mainEof, mainEof, mainEof])).main = .returned ∧
      (pooledTunnel.ServeHTTP netUp (.ok ()) sampleReq (midCopySchedule ++ [goErr, goErr, goErr, goErr])).trace.filter
          Event.ofGoroutine =
        [.bufGet ⟨1⟩ .clientToTarget 12, .copied .clientToTarget 7 [111, 107],
          .copyDone .clientToTarget (some ⟨"connection reset by peer"⟩),
          .bufPut ⟨1⟩ .clientToTarget 12, .clientClose] ∧
      (pooledTunnel.ServeHTTP netUp (.ok ()) sampleReq (midCopySchedule ++ [mainEof, mainEof, mainEof, mainEof])).trace.filter
          (Event.ofCopy .targetToClient) =
        [.bufGet ⟨1⟩ .targetToClient 11, .copied .targetToClient 7 [104, 105],
          .copyDone .targetToClient none, .bufPut ⟨1⟩ .targetToClient 11] :=
  ⟨((relay_buffers_returned_once pooledTunnel netUp sampleReq midCopySchedule 7
        (by decide)).2.2.1 goErr rfl).2.2.1 12 (by decide)
      (fun _ h => CopyResult.noConfusion h),
    ((relay_buffers_returned_once pooledTunnel netUp sampleReq (midCopySchedule ++ [goErr]) 7
        (by decide)).2.2.1 goErr rfl).2.2.2.1 12 (by decide),
    ((relay_buffers_returned_once pooledTunnel netUp sampleReq midCopySchedule 7
        (by decide)).2.2.2.1 mainEof rfl).2.2.1 11 (by decide)
      (fun _ h => CopyResult.noConfusion h),
    ((relay_buffers_returned_once pooledTunnel netUp sampleReq (midCopySchedule ++ [mainEof]) 7
        (by decide)).2.2.2.1 mainEof rfl).2.2.2 11 (by decide),
    ((relay_buffers_returned_once pooledTunnel netUp sampleReq midCopySchedule 7
        (by decide)).2.2.2.2.1 goErr rfl (fun _ h => CopyResult.noConfusion h)).1,
    ((relay_buffers_returned_once pooledTunnel netUp sampleReq midCopySchedule 7
        (by decide)).2.2.2.2.2.1 mainEof rfl (fun _ h => CopyResult.noConfusion h)).1,
    by decide, by decide⟩

end Mps
